import Mathlib

/-!
Verification development for the APEGA salary-survey analysis scripts.

The definitions below are a shallow embedding of the Python sources
(`scripts/forecast_salaries.py`, `scripts/parse_salary_tables.py`,
`scripts/extract_salary_data.py`).  Python dictionaries are embedded as
association lists, numpy/scipy floating-point arithmetic is idealized as
exact rational arithmetic over `ℚ`, and Python's `round` (banker's
rounding, round-half-to-even) is embedded as `pyRound`.
-/

/-- Insertion sort parameterized by a boolean `le`; embeds Python's
stable `sorted()` used on year keys and growth factors. -/
def insSort {α : Type} (le : α → α → Bool) : List α → List α
  | [] => []
  | x :: xs => insOrd le x (insSort le xs)
where
  insOrd (le : α → α → Bool) (x : α) : List α → List α
    | [] => [x]
    | y :: ys => if le x y then x :: y :: ys else y :: insOrd le x ys

/-- Python 3 `round`: round half to even (banker's rounding), all other
values to the nearest integer. -/
def pyRound (x : ℚ) : ℤ :=
  if x - ⌊x⌋ = 1 / 2 then (if ⌊x⌋ % 2 = 0 then ⌊x⌋ else ⌊x⌋ + 1) else round x

/-- `np.median` on a list of rationals: middle element of the sorted list,
or the mean of the two middle elements for even length. -/
def npMedian (l : List ℚ) : ℚ :=
  let s := insSort (fun a b => decide (a ≤ b)) l
  let n := l.length
  if n % 2 = 1 then s.getD (n / 2) 0
  else (s.getD (n / 2 - 1) 0 + s.getD (n / 2) 0) / 2

/-- One year's entry of the master dataset `salary_master.json`:
per-level ENG and GEO median salaries (integers, as stored by
`parse_salary_tables.py`), plus organization count, gender split
`(engineers_pct, geoscientists_pct)` and work-arrangement percentage. -/
structure YearData where
  eng : List (String × ℤ)
  geo : List (String × ℤ)
  orgCount : Option ℤ
  gender : Option (ℤ × ℤ)
  work : Option ℤ
deriving DecidableEq

/-- The consolidated master dataset: `metadata.years` plus the
`by_year` mapping (year → `YearData`), as built by
`SalaryTableParser.save_master_dataset`. -/
structure MasterData where
  years : List ℕ
  byYear : List (ℕ × YearData)
deriving DecidableEq

/-- `SalaryForecaster._extract_historical`: collect `{year: salary}` for
one profession and level from `master_data['by_year']`. -/
def extractHistorical (m : MasterData) (prof level : String) : List (ℕ × ℤ) :=
  m.byYear.filterMap (fun p =>
    let profData := if prof = "ENG" then p.2.eng else if prof = "GEO" then p.2.geo else []
    (List.lookup level profData).map (fun s => (p.1, s)))

/-- Historical series sorted by year, as produced by
`sorted(historical.keys())` in `_forecast_level`. -/
def sortHist (hist : List (ℕ × ℤ)) : List (ℕ × ℤ) :=
  insSort (fun a b => decide (a.1 ≤ b.1)) hist

/-- `years[0]` of the sorted historical series (normalization offset). -/
def firstYearQ (hist : List (ℕ × ℤ)) : ℚ :=
  (((sortHist hist).headD (0, 0)).1 : ℚ)

/-- `salaries[-1]`, the last known historical value of the level. -/
def lastKnownSalary (hist : List (ℕ × ℤ)) : ℤ :=
  ((sortHist hist).getLastD (0, 0)).2

/-- Normalized abscissae `years - years[0]` of the sorted series. -/
def histXs (hist : List (ℕ × ℤ)) : List ℚ :=
  (sortHist hist).map (fun p => (p.1 : ℚ) - firstYearQ hist)

/-- Ordinates (salaries) of the sorted series. -/
def histYs (hist : List (ℕ × ℤ)) : List ℚ :=
  (sortHist hist).map (fun p => (p.2 : ℚ))

/-- Slope of `scipy.stats.linregress` (ordinary least squares) in exact
rational arithmetic: covariance over variance of the abscissae. -/
def olsSlope (xs ys : List ℚ) : ℚ :=
  let n : ℚ := xs.length
  let xm := xs.sum / n
  let ym := ys.sum / n
  let sxy := ((xs.zip ys).map (fun p => (p.1 - xm) * (p.2 - ym))).sum
  let sxx := (xs.map (fun x => (x - xm) * (x - xm))).sum
  sxy / sxx

/-- Intercept of `scipy.stats.linregress`: `ymean - slope * xmean`. -/
def olsIntercept (xs ys : List ℚ) : ℚ :=
  ys.sum / xs.length - olsSlope xs ys * (xs.sum / xs.length)

/-- Sum of `k`-th powers of the abscissae, an entry of the normal
equations of the degree-2 least-squares fit. -/
def powSum (xs : List ℚ) (k : ℕ) : ℚ := (xs.map (fun x => x ^ k)).sum

/-- Sum of `x^k * y`, the right-hand side of the normal equations. -/
def mixSum (xs ys : List ℚ) (k : ℕ) : ℚ :=
  ((xs.zip ys).map (fun p => p.1 ^ k * p.2)).sum

/-- Determinant of a 3x3 matrix given row by row. -/
def det3 (a b c d e f g h i : ℚ) : ℚ :=
  a * (e * i - f * h) - b * (d * i - f * g) + c * (d * h - e * g)

/-- `np.polyfit(xs, ys, 2)` in exact rational arithmetic: coefficients
`(c2, c1, c0)` (highest degree first) of the degree-2 least-squares
polynomial, solved from the normal equations by Cramer's rule.  This is
the unique least-squares solution whenever the Vandermonde matrix has
full column rank (at least 3 distinct abscissae); for the rank-deficient
2-point case (flagged as an open question in the project documentation,
where numpy falls back to a minimum-norm solution) the determinant is 0
and the division-by-zero convention of `ℚ` yields 0 coefficients. -/
def poly2Coeffs (xs ys : List ℚ) : ℚ × ℚ × ℚ :=
  let s0 := powSum xs 0
  let s1 := powSum xs 1
  let s2 := powSum xs 2
  let s3 := powSum xs 3
  let s4 := powSum xs 4
  let t0 := mixSum xs ys 0
  let t1 := mixSum xs ys 1
  let t2 := mixSum xs ys 2
  let dd := det3 s4 s3 s2 s3 s2 s1 s2 s1 s0
  (det3 t2 s3 s2 t1 s2 s1 t0 s1 s0 / dd,
   det3 s4 t2 s2 s3 t1 s1 s2 t0 s0 / dd,
   det3 s4 s3 t2 s3 s2 t1 s2 s1 t0 / dd)

/-- Evaluation of the fitted degree-2 polynomial (`np.poly1d(poly_coeffs)`). -/
def poly2Predict (hist : List (ℕ × ℤ)) (t : ℚ) : ℚ :=
  let c := poly2Coeffs (histXs hist) (histYs hist)
  c.1 * t ^ 2 + c.2.1 * t + c.2.2

/-- Evaluation of the fitted regression line
(`linear_intercept + linear_slope * year_offset`). -/
def olsPredict (hist : List (ℕ × ℤ)) (t : ℚ) : ℚ :=
  olsIntercept (histXs hist) (histYs hist) + olsSlope (histXs hist) (histYs hist) * t

/-- The blended prediction `(poly_pred + linear_pred) / 2.0` of
`_forecast_level`. -/
def blendPredict (hist : List (ℕ × ℤ)) (t : ℚ) : ℚ :=
  (poly2Predict hist t + olsPredict hist t) / 2

/-- The fixed forecast horizon `range(2024, 2031)`. -/
def horizonYears : List ℕ := [2024, 2025, 2026, 2027, 2028, 2029, 2030]

/-- The forecast loop of `_forecast_level`: for each horizon year,
predict at `year - years[0]`, clamp below by the previous accepted value,
round, store, and carry the rounded value forward. -/
def forecastLoop (p : ℚ → ℚ) (y0 : ℚ) : List ℕ → ℚ → List (ℕ × ℤ)
  | [], _ => []
  | y :: ys, prev =>
    let predicted := p ((y : ℚ) - y0)
    let clamped := if predicted < prev then prev else predicted
    let rounded := pyRound clamped
    (y, rounded) :: forecastLoop p y0 ys (rounded : ℚ)

/-- `SalaryForecaster._forecast_level`: fit both models on the historical
series and run the monotone forecast loop over 2024-2030, starting from
the last known historical value. -/
def forecastLevel (hist : List (ℕ × ℤ)) : List (ℕ × ℤ) :=
  forecastLoop (blendPredict hist) (firstYearQ hist) horizonYears
    ((lastKnownSalary hist : ℤ) : ℚ)

/-- Python's `str.startswith`, on the underlying character lists. -/
def strStarts (s p : String) : Bool := List.isPrefixOf p.data s.data

/-- `float(forecast.get('2030', last_known))` of `_harmonize_group_growth`. -/
def predFinal (fc : List (ℕ × ℤ)) (last : ℚ) : ℚ :=
  match List.lookup 2030 fc with
  | some v => (v : ℚ)
  | none => last

/-- The growth factors collected by `_harmonize_group_growth`: for each
level of the group with nonempty history and positive last known value,
`pred_final / last_known`, kept only when strictly inside `(0.2, 10)`. -/
def growthFactors (m : MasterData) (prof : String)
    (sbl : List (String × List (ℕ × ℤ))) (g : String) : List ℚ :=
  sbl.filterMap (fun p =>
    if strStarts p.1 g then
      let hist := extractHistorical m prof p.1
      if hist.isEmpty then none
      else
        let last := ((lastKnownSalary hist : ℤ) : ℚ)
        if 0 < last then
          let f := predFinal p.2 last / last
          if 0.2 < f ∧ f < 10 then some f else none
        else none
    else none)

/-- The same collection without the outlier filter `(0.2, 10)`; used to
state which factors the filter discards. -/
def growthFactorsAll (m : MasterData) (prof : String)
    (sbl : List (String × List (ℕ × ℤ))) (g : String) : List ℚ :=
  sbl.filterMap (fun p =>
    if strStarts p.1 g then
      let hist := extractHistorical m prof p.1
      if hist.isEmpty then none
      else
        let last := ((lastKnownSalary hist : ℤ) : ℚ)
        if 0 < last then some (predFinal p.2 last / last) else none
    else none)

/-- The median growth factor used as the group target. -/
def medianFactor (m : MasterData) (prof : String)
    (sbl : List (String × List (ℕ × ℤ))) (g : String) : ℚ :=
  npMedian (growthFactors m prof sbl g)

/-- The straight-line replacement trajectory of `_harmonize_group_growth`:
year `2024 + i` receives `last + (target - last) * ((i+1) / 7)`, rounded. -/
def interpTraj (last target : ℚ) : List (ℕ × ℤ) :=
  (List.range 7).map (fun i =>
    (2024 + i, pyRound (last + (target - last) * (((i + 1 : ℕ) : ℚ) / 7))))

/-- The per-level update of `_harmonize_group_growth` (the
`salary_by_level[level] = new_vals` assignment): a group level with
nonempty history whose predicted final value is below
`last_known * median_factor` gets the straight-line replacement, every
other level keeps its forecast. -/
def adjustLevel (m : MasterData) (prof : String) (mf : ℚ) (g : String)
    (lvl : String) (fc : List (ℕ × ℤ)) : List (ℕ × ℤ) :=
  if strStarts lvl g then
    let hist := extractHistorical m prof lvl
    if hist.isEmpty then fc
    else
      let last := ((lastKnownSalary hist : ℤ) : ℚ)
      let pred := predFinal fc last
      let target := last * mf
      if pred < target then interpTraj last target else fc
  else fc

/-- `SalaryForecaster._harmonize_group_growth`: compute the group's
median growth factor over levels with the group prefix, and replace the
trajectory of every group level whose predicted final value is below
`last_known * median_factor` by the straight-line interpolation. -/
def harmonizeGroupGrowth (m : MasterData) (prof : String)
    (sbl : List (String × List (ℕ × ℤ))) (g : String) :
    List (String × List (ℕ × ℤ)) :=
  let factors := growthFactors m prof sbl g
  if factors.isEmpty then sbl
  else sbl.map (fun p => (p.1, adjustLevel m prof (npMedian factors) g p.1 p.2))

/-- The career levels iterated by `forecast_all` for the ENG profession. -/
def engLevels : List String :=
  ["P1", "P2", "P3", "P4", "P5", "M1", "M2", "M3", "M4", "M5"]

/-- The body of the per-level loop in `forecast_all`: skip a level with
fewer than 2 historical observations, otherwise forecast it. -/
def genForecast (m : MasterData) (prof level : String) : Option (List (ℕ × ℤ)) :=
  let hist := extractHistorical m prof level
  if hist.length < 2 then none else some (forecastLevel hist)

/-- The per-level forecasts of one profession before harmonization. -/
def rawForecasts (m : MasterData) (prof : String) : List (String × List (ℕ × ℤ)) :=
  engLevels.filterMap (fun lvl => (genForecast m prof lvl).map (fun fc => (lvl, fc)))

/-- One profession's pass of `forecast_all`: per-level forecasts followed
by group harmonization with group prefix `'M'`. -/
def forecastProfession (m : MasterData) (prof : String) : List (String × List (ℕ × ℤ)) :=
  harmonizeGroupGrowth m prof (rawForecasts m prof) "M"

/-- `SalaryForecaster.forecast_all`: the profession loop runs over
`['ENG']` only. -/
def forecastAll (m : MasterData) : List (String × List (String × List (ℕ × ℤ))) :=
  [("ENG", forecastProfession m "ENG")]

/-- Modelled from the spec (component 4.1, steps 4-6): the accepted value
of the `i`-th horizon year is the blended two-model prediction at that
year's offset, clamped up to the previous year's accepted value (the last
historical value for the first horizon year), rounded to an integer and
carried forward. -/
def specAccepted (hist : List (ℕ × ℤ)) : ℕ → ℤ
  | 0 =>
    let predicted := blendPredict hist (((2024 : ℕ) : ℚ) - firstYearQ hist)
    let prev := ((lastKnownSalary hist : ℤ) : ℚ)
    pyRound (if predicted < prev then prev else predicted)
  | i + 1 =>
    let predicted := blendPredict hist (((2025 + i : ℕ) : ℚ) - firstYearQ hist)
    let prev := ((specAccepted hist i : ℤ) : ℚ)
    pyRound (if predicted < prev then prev else predicted)

/-! ### Text extraction (`extract_salary_data._extract_org_stats`,
`parse_salary_tables.parse_year`): hand-compiled forms of the regex
patterns, with leftmost-match search, maximal digit/whitespace runs,
ordered alternation with backtracking, and lazy `.*?` as an increasing
scan.  Case-insensitive matching lowercases the subject character. -/

/-- ASCII lowercase conversion (for `re.IGNORECASE`). -/
def lowerCh (c : Char) : Char :=
  if 65 ≤ c.toNat ∧ c.toNat ≤ 90 then Char.ofNat (c.toNat + 32) else c

/-- Python's `\s` whitespace class (ASCII). -/
def isSpaceCh (c : Char) : Bool :=
  c = ' ' || c = '\t' || c = '\n' || c = '\r' || c = '\x0b' || c = '\x0c'

/-- Maximal prefix of decimal digits (`\d+` / `\d*`). -/
def takeDigits : List Char → List Char × List Char
  | [] => ([], [])
  | c :: cs =>
    if c.isDigit then
      let p := takeDigits cs
      (c :: p.1, p.2)
    else ([], c :: cs)

/-- Maximal prefix of whitespace (`\s+` / `\s*`). -/
def takeSpaces : List Char → List Char × List Char
  | [] => ([], [])
  | c :: cs =>
    if isSpaceCh c then
      let p := takeSpaces cs
      (c :: p.1, p.2)
    else ([], c :: cs)

/-- Consume a lowercase literal case-insensitively, returning the rest. -/
def matchCI : List Char → List Char → Option (List Char)
  | [], cs => some cs
  | _ :: _, [] => none
  | p :: ps, c :: cs => if lowerCh c = p then matchCI ps cs else none

/-- Numeric value of a digit character. -/
def digitVal (c : Char) : ℕ := c.toNat - 48

/-- Value of a digit string (`int(...)`). -/
def digitsVal (ds : List Char) : ℕ := ds.foldl (fun a c => a * 10 + digitVal c) 0

/-- Tail of org pattern 1 after `(\d+)\s+`: the optional
`(?:participating\s+)?` (tried first, with backtracking) followed by
`organizations?`. -/
def matchOrgTail (cs : List Char) : Option (List Char) :=
  match matchCI "participating".data cs with
  | some r1 =>
    let w := takeSpaces r1
    if w.1.isEmpty then matchCI "organization".data cs
    else
      match matchCI "organization".data w.2 with
      | some r => some r
      | none => matchCI "organization".data cs
  | none => matchCI "organization".data cs

/-- Org pattern 1 `(\d+)\s+(?:participating\s+)?organizations?` anchored
at the current position. -/
def matchOrgAt (cs : List Char) : Option ℕ :=
  let d := takeDigits cs
  if d.1.isEmpty then none
  else
    let w := takeSpaces d.2
    if w.1.isEmpty then none
    else
      match matchOrgTail w.2 with
      | some _ => some (digitsVal d.1)
      | none => none

/-- `re.search` of org pattern 1: leftmost matching position. -/
def searchOrg1 : List Char → Option ℕ
  | [] => none
  | c :: cs =>
    match matchOrgAt (c :: cs) with
    | some n => some n
    | none => searchOrg1 cs

/-- Org pattern 2 `(?:number|count)\s+of\s+organizations?:\s*(\d+)`
anchored at the current position. -/
def matchOrg2At (cs : List Char) : Option ℕ :=
  let alt :=
    match matchCI "number".data cs with
    | some r => some r
    | none => matchCI "count".data cs
  match alt with
  | none => none
  | some r1 =>
    let w1 := takeSpaces r1
    if w1.1.isEmpty then none
    else
      match matchCI "of".data w1.2 with
      | none => none
      | some r2 =>
        let w2 := takeSpaces r2
        if w2.1.isEmpty then none
        else
          match matchCI "organization".data w2.2 with
          | none => none
          | some r3 =>
            let r4 := match r3 with
              | c :: rest => if lowerCh c = 's' then rest else r3
              | [] => r3
            match r4 with
            | ':' :: r5 =>
              let w3 := takeSpaces r5
              let d := takeDigits w3.2
              if d.1.isEmpty then none else some (digitsVal d.1)
            | _ => none

/-- `re.search` of org pattern 2. -/
def searchOrg2 : List Char → Option ℕ
  | [] => none
  | c :: cs =>
    match matchOrg2At (c :: cs) with
    | some n => some n
    | none => searchOrg2 cs

/-- `APEGASalaryParser._extract_org_stats` organization count: the two
patterns tried in order, first match wins. -/
def extractNumOrganizations (text : List Char) : Option ℕ :=
  match searchOrg1 text with
  | some n => some n
  | none => searchOrg2 text

/-- The suffix `(\d+)%\s+(?:Geoscientists|GEO)` of gender pattern 1,
anchored at the current position. -/
def matchGeoAt (cs : List Char) : Option ℕ :=
  let d := takeDigits cs
  if d.1.isEmpty then none
  else
    match d.2 with
    | '%' :: r1 =>
      let w := takeSpaces r1
      if w.1.isEmpty then none
      else
        match matchCI "geoscientists".data w.2 with
        | some _ => some (digitsVal d.1)
        | none =>
          match matchCI "geo".data w.2 with
          | some _ => some (digitsVal d.1)
          | none => none
    | _ => none

/-- The lazy `.*?` before the geoscientist group: scan forward to the
first position where the suffix matches. -/
def searchGeo : List Char → Option ℕ
  | [] => none
  | c :: cs =>
    match matchGeoAt (c :: cs) with
    | some n => some n
    | none => searchGeo cs

/-- Gender pattern 1
`(\d+)%\s+(?:Engineers|ENG).*?(\d+)%\s+(?:Geoscientists|GEO)` anchored at
the current position (both alternation branches are tried). -/
def matchGender1At (cs : List Char) : Option (ℕ × ℕ) :=
  let d := takeDigits cs
  if d.1.isEmpty then none
  else
    match d.2 with
    | '%' :: r1 =>
      let w := takeSpaces r1
      if w.1.isEmpty then none
      else
        let viaFull :=
          match matchCI "engineers".data w.2 with
          | some r => searchGeo r
          | none => none
        match viaFull with
        | some g => some (digitsVal d.1, g)
        | none =>
          match matchCI "eng".data w.2 with
          | some r =>
            match searchGeo r with
            | some g => some (digitsVal d.1, g)
            | none => none
          | none => none
    | _ => none

/-- `re.search` of gender pattern 1. -/
def searchGender1 : List Char → Option (ℕ × ℕ)
  | [] => none
  | c :: cs =>
    match matchGender1At (c :: cs) with
    | some p => some p
    | none => searchGender1 cs

/-- Gender pattern 2 `(\d+)%\s+(\d+)%\s+Engineers\s+Geoscientists`
anchored at the current position. -/
def matchGender2At (cs : List Char) : Option (ℕ × ℕ) :=
  let d1 := takeDigits cs
  if d1.1.isEmpty then none
  else
    match d1.2 with
    | '%' :: r1 =>
      let w1 := takeSpaces r1
      if w1.1.isEmpty then none
      else
        let d2 := takeDigits w1.2
        if d2.1.isEmpty then none
        else
          match d2.2 with
          | '%' :: r2 =>
            let w2 := takeSpaces r2
            if w2.1.isEmpty then none
            else
              match matchCI "engineers".data w2.2 with
              | none => none
              | some r3 =>
                let w3 := takeSpaces r3
                if w3.1.isEmpty then none
                else
                  match matchCI "geoscientists".data w3.2 with
                  | some _ => some (digitsVal d1.1, digitsVal d2.1)
                  | none => none
          | _ => none
    | _ => none

/-- `re.search` of gender pattern 2. -/
def searchGender2 : List Char → Option (ℕ × ℕ)
  | [] => none
  | c :: cs =>
    match matchGender2At (c :: cs) with
    | some p => some p
    | none => searchGender2 cs

/-- The gender-split extraction of `parse_year`: the two patterns tried
in order, first match wins; the result is
`(engineers_pct, geoscientists_pct)`. -/
def extractGenderSplit (text : List Char) : Option (ℕ × ℕ) :=
  match searchGender1 text with
  | some p => some p
  | none => searchGender2 text

/-! ### Table processing (`parse_salary_tables._process_tables`):
tables are lists of rows of optional text cells; `tableText` stands in
for the `DataFrame.to_string()` rendering used only for keyword and
profession detection (its exact layout does not matter there). -/

/-- A cell of an extracted PDF table (`None` or a string). -/
abbrev TCell := Option (List Char)

/-- A row of an extracted PDF table. -/
abbrev TRow := List TCell

/-- An extracted PDF table. -/
abbrev PTable := List TRow

/-- Join text fragments with single spaces. -/
def joinSpaces : List (List Char) → List Char
  | [] => []
  | [x] => x
  | x :: xs => x ++ ' ' :: joinSpaces xs

/-- Join lines with newlines. -/
def joinLines : List (List Char) → List Char
  | [] => []
  | [x] => x
  | x :: xs => x ++ '\n' :: joinLines xs

/-- `' '.join(str(cell) for cell in row if cell)`: truthy cells joined. -/
def rowText (row : TRow) : List Char :=
  joinSpaces (row.filterMap (fun c =>
    match c with
    | some (a :: l) => some (a :: l)
    | _ => none))

/-- Textual rendering of a table, standing in for `df.to_string()`. -/
def tableText (t : PTable) : List Char :=
  joinLines (t.map rowText)

/-- Python's `in` substring test. -/
def containsSub (hay pat : List Char) : Bool :=
  match hay with
  | [] => pat.isEmpty
  | _ :: t => pat.isPrefixOf hay || containsSub t pat

/-- The salary-table indicator keywords of `_process_tables`. -/
def salaryKeywords : List (List Char) :=
  ["Median Base".data, "Annual Base Salary".data, "Base Salary".data,
   "P1".data, "P2".data, "M1".data, "M2".data]

/-- `any(keyword in df_text for keyword in ...)`. -/
def hasSalaryData (txt : List Char) : Bool :=
  salaryKeywords.any (fun k => containsSub txt k)

/-- Profession detection of `_process_tables` (ENG takes precedence). -/
def professionOf (txt : List Char) : Option String :=
  if containsSub txt "ENG".data || containsSub txt "Engineering".data then some "ENG"
  else if containsSub txt "GEO".data || containsSub txt "Geoscience".data then some "GEO"
  else none

/-- The career levels probed by the nested loops of `_process_tables`
(`for level_type in ['P', 'M']: for level_num in range(1, 7)`). -/
def levelNames : List String :=
  ["P1", "P2", "P3", "P4", "P5", "P6", "M1", "M2", "M3", "M4", "M5", "M6"]

/-- A character matched by `[\d,]`. -/
def isNumRunCh (c : Char) : Bool := c.isDigit || c = ','

/-- Maximal prefix run of `[\d,]` characters. -/
def takeNumRun : List Char → List Char × List Char
  | [] => ([], [])
  | c :: cs =>
    if isNumRunCh c then
      let p := takeNumRun cs
      (c :: p.1, p.2)
    else ([], c :: cs)

/-- `re.search(r'\$?([\d,]+)', cell)`: the leftmost maximal `[\d,]+` run
(the optional dollar sign does not affect the captured group). -/
def firstNumRun : List Char → Option (List Char)
  | [] => none
  | c :: cs =>
    if isNumRunCh c then some (takeNumRun (c :: cs)).1
    else firstNumRun cs

/-- `int(match.group(1).replace(',', ''))`: drop the commas and read the
digits; an empty digit string is Python's `ValueError`. -/
def numValOf (run : List Char) : Option ℕ :=
  let ds := run.filter Char.isDigit
  if ds.isEmpty then none else some (digitsVal ds)

/-- The cell scan of `_process_tables`: the first cell whose leftmost
numeric run parses to a value inside `[20000, 300000]` supplies the
salary (out-of-range and unparseable cells are skipped). -/
def scanCells : TRow → Option ℕ
  | [] => none
  | none :: cs => scanCells cs
  | some [] :: cs => scanCells cs
  | some (c :: rest) :: cs =>
    match firstNumRun (c :: rest) with
    | none => scanCells cs
    | some run =>
      match numValOf run with
      | none => scanCells cs
      | some v => if 20000 ≤ v ∧ v ≤ 300000 then some v else scanCells cs

/-- `if level not in target_dict: target_dict[level] = salary`. -/
def insertAbsent (k : String) (v : ℕ) (d : List (String × ℕ)) : List (String × ℕ) :=
  if (List.lookup k d).isSome then d else d ++ [(k, v)]

/-- One row of `_process_tables`: every level name contained in the row
text gets the row's scanned salary (if any), inserted if absent. -/
def processRow (row : TRow) (acc : List (String × ℕ)) : List (String × ℕ) :=
  levelNames.foldl (fun d lvl =>
    if containsSub (rowText row) lvl.data then
      match scanCells row with
      | some v => insertAbsent lvl v d
      | none => d
    else d) acc

/-- `_process_tables` on one table: skip tables with fewer than 2 rows
or without salary keywords or an identifiable profession; otherwise fold
the rows into that profession's accumulator. -/
def processTable (t : PTable) (accE accG : List (String × ℕ)) :
    List (String × ℕ) × List (String × ℕ) :=
  if t.length < 2 then (accE, accG)
  else
    let txt := tableText t
    if hasSalaryData txt then
      match professionOf txt with
      | some prof =>
        let upd := t.foldl (fun d row => processRow row d)
          (if prof = "ENG" then accE else accG)
        if prof = "ENG" then (upd, accG) else (accE, upd)
      | none => (accE, accG)
    else (accE, accG)

/-- `_process_tables` over all tables of a page. -/
def processTables (ts : List PTable) (accE accG : List (String × ℕ)) :
    List (String × ℕ) × List (String × ℕ) :=
  ts.foldl (fun acc t => processTable t acc.1 acc.2) (accE, accG)

/-- A concrete extracted table used to exercise the range invariant. -/
def sampleTable : PTable :=
  [[some ("ENG Median Base".data)],
   [some ("P1".data), some ("95,000".data)]]

/-- The two-observation sample series of the specification
(`{2020: 100, 2023: 130}` for ENG P1), as a master dataset. -/
def sampleMaster : MasterData :=
  ⟨[2020, 2023],
   [(2020, ⟨[("P1", 100)], [], none, none, none⟩),
    (2023, ⟨[("P1", 130)], [], none, none, none⟩)]⟩

/-- The forecast produced for the sample series: every horizon year is
clamped to the last observed value 130. -/
def sampleForecast : List (ℕ × ℤ) :=
  [(2024, 130), (2025, 130), (2026, 130), (2027, 130), (2028, 130),
   (2029, 130), (2030, 130)]

/-- A master dataset with three management levels, used to exercise the
group harmonizer. -/
def harmonyMaster : MasterData :=
  ⟨[2023], [(2023, ⟨[("M1", 100), ("M2", 100), ("M3", 100)], [], none, none, none⟩)]⟩

/-- Handcrafted per-level forecasts whose growth factors are 1.1, 1.5
and 2.0, so the median is 1.5 and M1 lags behind it. -/
def harmonySbl : List (String × List (ℕ × ℤ)) :=
  [("M1", [(2030, 110)]), ("M2", [(2030, 150)]), ("M3", [(2030, 200)])]

/-! ### JSON serialization (`save_master_dataset` / `load_master_data`):
`json.dump` and `json.load` are embedded as a printer and a
recursive-descent parser (with a fuel parameter) over the JSON fragment
the master dataset uses: `null`, integers, escape-free strings, arrays
and objects.  The printer omits the cosmetic whitespace of `indent=2`;
the parser skips whitespace wherever `json.load` accepts it. -/

/-- JSON values, as written and read by the pipeline scripts. -/
inductive Json where
  | null : Json
  | num : ℤ → Json
  | str : List Char → Json
  | arr : List Json → Json
  | obj : List (List Char × Json) → Json

/-- The decimal digit character for a value below ten. -/
def digitChar : ℕ → Char
  | 0 => '0'
  | 1 => '1'
  | 2 => '2'
  | 3 => '3'
  | 4 => '4'
  | 5 => '5'
  | 6 => '6'
  | 7 => '7'
  | 8 => '8'
  | _ => '9'

/-- Decimal digits of a natural number, most significant first,
prepended to an accumulator. -/
def printNatAux (n : ℕ) (acc : List Char) : List Char :=
  if n < 10 then digitChar n :: acc
  else printNatAux (n / 10) (digitChar (n % 10) :: acc)
termination_by n
decreasing_by exact Nat.div_lt_self (by omega) (by omega)

/-- Decimal rendering of a natural number. -/
def printNat (n : ℕ) : List Char := printNatAux n []

/-- Decimal rendering of an integer (Python `repr` of an `int`). -/
def printInt (i : ℤ) : List Char :=
  if i < 0 then '-' :: printNat i.natAbs else printNat i.natAbs

mutual

/-- Compact text of a JSON value, modelling `json.dump` (whose `indent=2`
whitespace is insignificant to the reader). -/
def printJson : Json → List Char
  | .null => 'n' :: 'u' :: 'l' :: 'l' :: []
  | .num i => printInt i
  | .str s => '"' :: (s ++ ['"'])
  | .arr xs => '[' :: (printItems xs ++ [']'])
  | .obj kvs => '{' :: (printMembers kvs ++ ['}'])

/-- Comma-separated array items. -/
def printItems : List Json → List Char
  | [] => []
  | [x] => printJson x
  | x :: xs => printJson x ++ ',' :: printItems xs

/-- Comma-separated `"key":value` object members. -/
def printMembers : List (List Char × Json) → List Char
  | [] => []
  | [(k, v)] => '"' :: (k ++ '"' :: ':' :: printJson v)
  | (k, v) :: kvs => ('"' :: (k ++ '"' :: ':' :: printJson v)) ++ ',' :: printMembers kvs

end

/-- JSON whitespace accepted between tokens. -/
def isJWs (c : Char) : Bool := c = ' ' || c = '\t' || c = '\n' || c = '\r'

/-- Skip JSON whitespace. -/
def skipWs : List Char → List Char
  | [] => []
  | c :: cs => if isJWs c then skipWs cs else c :: cs

/-- Read a string body up to the closing quote (the dataset's strings
contain no escapes). -/
def takeStr : List Char → Option (List Char × List Char)
  | [] => none
  | c :: cs =>
    if c = '"' then some ([], cs)
    else
      match takeStr cs with
      | some (s, r) => some (c :: s, r)
      | none => none

mutual

/-- Recursive-descent JSON parser (fuel-indexed), modelling `json.load`
on the fragment the dataset uses. -/
def parseJ : ℕ → List Char → Option (Json × List Char)
  | 0, _ => none
  | f + 1, cs =>
    match skipWs cs with
    | [] => none
    | c :: cs' =>
      if c = 'n' then
        match cs' with
        | 'u' :: 'l' :: 'l' :: r => some (.null, r)
        | _ => none
      else if c = '"' then
        (takeStr cs').map (fun p => (Json.str p.1, p.2))
      else if c = '-' then
        match takeDigits cs' with
        | ([], _) => none
        | (ds, r) => some (.num (-(digitsVal ds : ℤ)), r)
      else if c.isDigit then
        match takeDigits (c :: cs') with
        | ([], _) => none
        | (ds, r) => some (.num ((digitsVal ds : ℤ)), r)
      else if c = '[' then
        match skipWs cs' with
        | ']' :: r => some (.arr [], r)
        | cs2 => (parseItems f cs2).map (fun p => (Json.arr p.1, p.2))
      else if c = '{' then
        match skipWs cs' with
        | '}' :: r => some (.obj [], r)
        | cs2 => (parseMembers f cs2).map (fun p => (Json.obj p.1, p.2))
      else none

/-- Parse one or more comma-separated array items up to `]`. -/
def parseItems : ℕ → List Char → Option (List Json × List Char)
  | 0, _ => none
  | f + 1, cs =>
    match parseJ f cs with
    | none => none
    | some (v, r) =>
      match skipWs r with
      | ',' :: r2 => (parseItems f r2).map (fun p => (v :: p.1, p.2))
      | ']' :: r2 => some ([v], r2)
      | _ => none

/-- Parse one or more comma-separated object members up to `}`. -/
def parseMembers : ℕ → List Char → Option (List (List Char × Json) × List Char)
  | 0, _ => none
  | f + 1, cs =>
    match skipWs cs with
    | '"' :: cs' =>
      match takeStr cs' with
      | none => none
      | some (k, r) =>
        match skipWs r with
        | ':' :: r2 =>
          match parseJ f r2 with
          | none => none
          | some (v, r3) =>
            match skipWs r3 with
            | ',' :: r4 => (parseMembers f r4).map (fun p => ((k, v) :: p.1, p.2))
            | '}' :: r4 => some ([(k, v)], r4)
            | _ => none
        | _ => none
    | _ => none

end

/-- A string character the printer and `json.dump` treat identically:
not a quote, not a backslash, not a control character. -/
def wfChar (c : Char) : Bool :=
  decide (c ≠ '"' ∧ c ≠ '\\' ∧ 32 ≤ c.toNat)

/-- Well-formed (escape-free) string content. -/
def wfStr (s : List Char) : Bool := s.all wfChar

mutual

/-- JSON values whose strings are all escape-free. -/
def wfJson : Json → Bool
  | .null => true
  | .num _ => true
  | .str s => wfStr s
  | .arr xs => wfItems xs
  | .obj kvs => wfMembers kvs

/-- `wfJson` on array items. -/
def wfItems : List Json → Bool
  | [] => true
  | x :: xs => wfJson x && wfItems xs

/-- `wfJson` on object members (keys included). -/
def wfMembers : List (List Char × Json) → Bool
  | [] => true
  | (k, v) :: kvs => wfStr k && wfJson v && wfMembers kvs

end

mutual

/-- Fuel needed by `parseJ` for a printed value. -/
def jsizeJ : Json → ℕ
  | .null => 1
  | .num _ => 1
  | .str _ => 1
  | .arr xs => 1 + jsizeL xs
  | .obj kvs => 1 + jsizeM kvs

/-- Fuel needed by `parseItems` for printed items. -/
def jsizeL : List Json → ℕ
  | [] => 0
  | x :: xs => 1 + jsizeJ x + jsizeL xs

/-- Fuel needed by `parseMembers` for printed members. -/
def jsizeM : List (List Char × Json) → ℕ
  | [] => 0
  | (_, v) :: kvs => 1 + jsizeJ v + jsizeM kvs

end

/-- The residual-input condition under which a printed value is parsed
back exactly: a number must not be followed immediately by a digit. -/
def restOk : Json → List Char → Prop
  | Json.num _, c :: _ => c.isDigit = false
  | _, _ => True

/-- `org_count` serialization: `null` or the integer. -/
def optNumJson : Option ℤ → Json
  | none => Json.null
  | some v => Json.num v

/-- `gender` serialization: `null` or the two-percentage object. -/
def genderJson : Option (ℤ × ℤ) → Json
  | none => Json.null
  | some g => Json.obj [("engineers_pct".data, Json.num g.1),
                        ("geoscientists_pct".data, Json.num g.2)]

/-- `work_arrangements` serialization: `null` or the percentage object. -/
def workJson : Option ℤ → Json
  | none => Json.null
  | some w => Json.obj [("remote_or_hybrid_pct".data, Json.num w)]

/-- One year's entry of `save_master_dataset`. -/
def dumpYear (yd : YearData) : Json :=
  Json.obj [("ENG".data, Json.obj (yd.eng.map (fun p => (p.1.data, Json.num p.2)))),
            ("GEO".data, Json.obj (yd.geo.map (fun p => (p.1.data, Json.num p.2)))),
            ("org_count".data, optNumJson yd.orgCount),
            ("gender".data, genderJson yd.gender),
            ("work_arrangements".data, workJson yd.work)]

/-- The fixed `metadata.levels` object (`CAREER_LEVELS`). -/
def levelsMetaJson : Json :=
  Json.obj [("P".data, Json.arr (["P1", "P2", "P3", "P4", "P5", "P6"].map
              (fun s => Json.str s.data))),
            ("M".data, Json.arr (["M1", "M2", "M3", "M4", "M5"].map
              (fun s => Json.str s.data)))]

/-- `SalaryTableParser.save_master_dataset`: the master dataset as the
JSON value written to `salary_master.json` (year keys stringified). -/
def dumpMaster (d : MasterData) : Json :=
  Json.obj [("metadata".data, Json.obj [
              ("years".data, Json.arr (d.years.map (fun y => Json.num (Int.ofNat y)))),
              ("professions".data, Json.arr [Json.str "ENG".data, Json.str "GEO".data]),
              ("levels".data, levelsMetaJson)]),
            ("by_year".data, Json.obj (d.byYear.map
              (fun p => (printNat p.1, dumpYear p.2))))]

/-- Read a per-level salary object back (`{level: int}`). -/
def readSalaryList : List (List Char × Json) → Option (List (String × ℤ))
  | [] => some []
  | (k, Json.num v) :: rest => (readSalaryList rest).map (fun l => (String.mk k, v) :: l)
  | _ => none

/-- Read a salary mapping value. -/
def readSalaries : Json → Option (List (String × ℤ))
  | Json.obj kvs => readSalaryList kvs
  | _ => none

/-- Read `org_count` back. -/
def readOptNum : Json → Option (Option ℤ)
  | Json.null => some none
  | Json.num v => some (some v)
  | _ => none

/-- Read `gender` back. -/
def readGender : Json → Option (Option (ℤ × ℤ))
  | Json.null => some none
  | Json.obj [(k1, Json.num e), (k2, Json.num g)] =>
    if k1 = "engineers_pct".data ∧ k2 = "geoscientists_pct".data
    then some (some (e, g)) else none
  | _ => none

/-- Read `work_arrangements` back. -/
def readWork : Json → Option (Option ℤ)
  | Json.null => some none
  | Json.obj [(k, Json.num w)] =>
    if k = "remote_or_hybrid_pct".data then some (some w) else none
  | _ => none

/-- Read one year's entry back. -/
def readYear : Json → Option YearData
  | Json.obj [(k1, je), (k2, jg), (k3, jo), (k4, jgen), (k5, jw)] =>
    if k1 = "ENG".data ∧ k2 = "GEO".data ∧ k3 = "org_count".data ∧
       k4 = "gender".data ∧ k5 = "work_arrangements".data then
      match readSalaries je, readSalaries jg, readOptNum jo,
            readGender jgen, readWork jw with
      | some e, some g, some o, some gen, some w => some ⟨e, g, o, gen, w⟩
      | _, _, _, _, _ => none
    else none
  | _ => none

/-- `int(year_string)`, as `load_master_data` interprets year keys. -/
def readNatKey (k : List Char) : Option ℕ :=
  if k.isEmpty then none
  else if k.all Char.isDigit then some (digitsVal k) else none

/-- Read the `by_year` members back (year keys parsed as integers). -/
def readByYear : List (List Char × Json) → Option (List (ℕ × YearData))
  | [] => some []
  | (k, j) :: rest =>
    match readNatKey k, readYear j, readByYear rest with
    | some y, some yd, some l => some ((y, yd) :: l)
    | _, _, _ => none

/-- Read a list of integer years. -/
def readNumList : List Json → Option (List ℕ)
  | [] => some []
  | Json.num (Int.ofNat n) :: rest => (readNumList rest).map (fun l => n :: l)
  | _ => none

/-- Read the `metadata.years` array. -/
def readYearsList : Json → Option (List ℕ)
  | Json.arr xs => readNumList xs
  | _ => none

/-- Interpret the parsed JSON value as the master dataset, the way
`load_master_data` and its consumers access it. -/
def readMaster : Json → Option MasterData
  | Json.obj [(k1, Json.obj [(km1, jyears), (km2, _jprofs), (km3, _jlevels)]),
              (k2, Json.obj ys)] =>
    if k1 = "metadata".data ∧ km1 = "years".data ∧ km2 = "professions".data ∧
       km3 = "levels".data ∧ k2 = "by_year".data then
      match readYearsList jyears, readByYear ys with
      | some yl, some bys => some ⟨yl, bys⟩
      | _, _ => none
    else none
  | _ => none

/-- `SalaryForecaster.load_master_data`: parse the file text and
interpret the resulting JSON value. -/
def loadMaster (cs : List Char) : Option MasterData :=
  match parseJ cs.length cs with
  | some (j, rest) => if (skipWs rest).isEmpty then readMaster j else none
  | none => none

/-- The strings of the dataset that are not fixed by the code: every
level name must be escape-free for the text round trip. -/
def wfMaster (d : MasterData) : Bool :=
  d.byYear.all (fun p =>
    p.2.eng.all (fun q => wfStr q.1.data) && p.2.geo.all (fun q => wfStr q.1.data))

/-- A concrete master dataset exercising every field of the format. -/
def jsonSampleMaster : MasterData :=
  ⟨[2020], [(2020, ⟨[("P1", 95000), ("M1", 120000)], [("P1", 90000)],
             some 169, some (92, 8), some 35⟩)]⟩

/-! ### Basic lemmas about rounding and the forecast loop -/

theorem floor_le_pyRound (x : ℚ) : ⌊x⌋ ≤ pyRound x := by
  unfold pyRound
  split
  · split <;> omega
  · rw [round_eq]
    exact Int.floor_mono (by linarith)

theorem int_le_pyRound (n : ℤ) (x : ℚ) (h : (n : ℚ) ≤ x) : n ≤ pyRound x :=
  le_trans (Int.le_floor.mpr h) (floor_le_pyRound x)

theorem forecastLoop_map_fst (p : ℚ → ℚ) (y0 : ℚ) :
    ∀ (ys : List ℕ) (prev : ℚ), (forecastLoop p y0 ys prev).map Prod.fst = ys := by
  intro ys
  induction ys with
  | nil => intro prev; rfl
  | cons y ys ih => intro prev; simp [forecastLoop, ih]

theorem forecastLoop_ge (p : ℚ → ℚ) (y0 : ℚ) :
    ∀ (ys : List ℕ) (n : ℤ) (y : ℕ) (v : ℤ),
      (y, v) ∈ forecastLoop p y0 ys ((n : ℤ) : ℚ) → n ≤ v := by
  intro ys
  induction ys with
  | nil => intro n y v h; simp [forecastLoop] at h
  | cons z zs ih =>
      intro n y v h
      simp only [forecastLoop, List.mem_cons] at h
      rcases h with h | h
      · have hv : v = pyRound (if p ((z : ℚ) - y0) < (n : ℚ) then (n : ℚ)
            else p ((z : ℚ) - y0)) := congrArg Prod.snd h
        subst hv
        apply int_le_pyRound
        split
        · exact le_refl _
        · exact le_of_not_lt (by assumption)
      · set r := pyRound (if p ((z : ℚ) - y0) < (n : ℚ) then (n : ℚ)
            else p ((z : ℚ) - y0)) with hr
        have hnr : n ≤ r := by
          apply int_le_pyRound
          split
          · exact le_refl _
          · exact le_of_not_lt (by assumption)
        exact le_trans hnr (ih r y v h)

theorem forecastLoop_chain (p : ℚ → ℚ) (y0 : ℚ) :
    ∀ (ys : List ℕ) (n : ℤ),
      List.Chain' (fun a b => a.2 ≤ b.2) (forecastLoop p y0 ys ((n : ℤ) : ℚ)) := by
  intro ys
  induction ys with
  | nil => intro n; simp [forecastLoop]
  | cons z zs ih =>
      intro n
      simp only [forecastLoop]
      rw [List.chain'_cons']
      constructor
      · intro b hb
        set r := pyRound (if p ((z : ℚ) - y0) < (n : ℚ) then (n : ℚ)
            else p ((z : ℚ) - y0)) with hr
        have hbmem : b ∈ forecastLoop p y0 zs ((r : ℤ) : ℚ) :=
          List.mem_of_mem_head? hb
        exact forecastLoop_ge p y0 zs r b.1 b.2 (by simpa using hbmem)
      · exact ih _

theorem lookup_some_mem {α β : Type} [BEq α] [LawfulBEq α] {l : List (α × β)}
    {k : α} {v : β} (h : List.lookup k l = some v) : (k, v) ∈ l := by
  induction l with
  | nil => simp [List.lookup] at h
  | cons p l ih =>
      rw [List.lookup] at h
      by_cases hk : k == p.1
      · rw [hk] at h
        simp only [Option.some.injEq] at h
        have hk' : k = p.1 := eq_of_beq hk
        subst hk'
        rw [← h, Prod.mk.eta]
        exact List.mem_cons_self p l
      · rw [Bool.not_eq_true] at hk
        rw [hk] at h
        exact List.mem_cons_of_mem _ (ih h)

theorem lookup_map_keyed {α β : Type} [BEq α] [LawfulBEq α]
    (f : α → β → β) (l : List (α × β)) (k : α) :
    List.lookup k (l.map (fun p => (p.1, f p.1 p.2))) = (List.lookup k l).map (f k) := by
  induction l with
  | nil => rfl
  | cons p l ih =>
      simp only [List.map_cons, List.lookup]
      by_cases hk : k == p.1
      · have : k = p.1 := eq_of_beq hk
        subst this
        simp
      · rw [Bool.not_eq_true] at hk
        rw [hk]
        exact ih

theorem lookup_filterMap_keySelf {β : Type} (f : String → Option β)
    (ls : List String) (k : String) :
    List.lookup k (ls.filterMap (fun l => (f l).map (fun b => (l, b)))) =
      if k ∈ ls then f k else none := by
  induction ls with
  | nil => simp
  | cons l ls ih =>
      by_cases hk : k = l
      · subst hk
        cases hf : f k with
        | none =>
            simp only [List.filterMap_cons, hf, Option.map_none', ih]
            by_cases hmem : k ∈ ls <;> simp [hmem, hf]
        | some b =>
            simp [List.filterMap_cons, hf, List.lookup]
      · cases hf : f l with
        | none =>
            simp only [List.filterMap_cons, hf, Option.map_none', ih]
            simp [List.mem_cons, hk]
        | some b =>
            simp only [List.filterMap_cons, hf, Option.map_some', List.lookup]
            have : (k == l) = false := beq_false_of_ne hk
            rw [this]
            simp only [ih]
            simp [List.mem_cons, hk]

theorem lookup_isSome_of_mem_fst {α β : Type} [BEq α] [LawfulBEq α]
    {l : List (α × β)} {k : α} (h : k ∈ l.map Prod.fst) :
    (List.lookup k l).isSome = true := by
  induction l with
  | nil => simp at h
  | cons p l ih =>
      rw [List.map_cons, List.mem_cons] at h
      rw [List.lookup]
      by_cases hk : k == p.1
      · rw [hk]; rfl
      · rw [Bool.not_eq_true] at hk
        rw [hk]
        rcases h with h | h
        · exact absurd (beq_iff_eq.mpr h) (by simp [hk])
        · exact ih h

theorem forecastLevel_mem_ge (hist : List (ℕ × ℤ)) (y : ℕ) (v : ℤ)
    (h : (y, v) ∈ forecastLevel hist) : lastKnownSalary hist ≤ v :=
  forecastLoop_ge (blendPredict hist) (firstYearQ hist) horizonYears
    (lastKnownSalary hist) y v h

theorem forecastLevel_lookup_2030 (hist : List (ℕ × ℤ)) :
    ∃ v : ℤ, List.lookup 2030 (forecastLevel hist) = some v ∧
      lastKnownSalary hist ≤ v := by
  have hmem : (2030 : ℕ) ∈ (forecastLevel hist).map Prod.fst := by
    rw [forecastLevel, forecastLoop_map_fst]
    simp [horizonYears]
  have hsome := lookup_isSome_of_mem_fst hmem
  obtain ⟨v, hv⟩ := Option.isSome_iff_exists.mp hsome
  exact ⟨v, hv, forecastLevel_mem_ge hist 2030 v (lookup_some_mem hv)⟩

theorem lookup_rawForecasts (m : MasterData) (prof lvl : String) :
    List.lookup lvl (rawForecasts m prof) =
      if lvl ∈ engLevels then genForecast m prof lvl else none :=
  lookup_filterMap_keySelf (genForecast m prof) engLevels lvl

theorem lookup_harmonize (m : MasterData) (prof : String)
    (sbl : List (String × List (ℕ × ℤ))) (g lvl : String) :
    List.lookup lvl (harmonizeGroupGrowth m prof sbl g) =
      if (growthFactors m prof sbl g).isEmpty then List.lookup lvl sbl
      else (List.lookup lvl sbl).map
        (adjustLevel m prof (npMedian (growthFactors m prof sbl g)) g lvl) := by
  rw [harmonizeGroupGrowth]
  by_cases hf : (growthFactors m prof sbl g).isEmpty <;>
    simp [hf, lookup_map_keyed]

theorem interpTraj_ge (lastZ : ℤ) (target : ℚ) (h : ((lastZ : ℤ) : ℚ) ≤ target) :
    ∀ y v, (y, v) ∈ interpTraj ((lastZ : ℤ) : ℚ) target → lastZ ≤ v := by
  intro y v hmem
  rw [interpTraj] at hmem
  simp only [List.mem_map, List.mem_range] at hmem
  obtain ⟨i, _, hpair⟩ := hmem
  have hv : v = pyRound (((lastZ : ℤ) : ℚ) +
      (target - ((lastZ : ℤ) : ℚ)) * (((i + 1 : ℕ) : ℚ) / 7)) :=
    (congrArg Prod.snd hpair).symm
  subst hv
  apply int_le_pyRound
  have hfrac : (0 : ℚ) ≤ ((i + 1 : ℕ) : ℚ) / 7 := by positivity
  nlinarith

/-- Claim C1: for any historical series with at least 2 observations,
`_forecast_level` produces one value for each of the 7 horizon years
2024-2030, and the accepted values are monotonically non-decreasing:
each is at least the previous accepted value (the clamp starts from the
last historical value and carries forward the rounded accepted value). -/
theorem forecast_horizon_complete_and_monotone (hist : List (ℕ × ℤ))
    (h2 : 2 ≤ hist.length) :
    (forecastLevel hist).map Prod.fst = horizonYears ∧
      List.Chain' (fun a b => a.2 ≤ b.2) (forecastLevel hist) :=
  ⟨forecastLoop_map_fst _ _ _ _,
   forecastLoop_chain (blendPredict hist) (firstYearQ hist) horizonYears
     (lastKnownSalary hist)⟩

theorem forecast_horizon_complete_and_monotone_wit :
    2 ≤ [((2020 : ℕ), (100 : ℤ)), (2023, 130)].length ∧
      ((forecastLevel [((2020 : ℕ), (100 : ℤ)), (2023, 130)]).map Prod.fst = horizonYears ∧
        List.Chain' (fun a b => a.2 ≤ b.2)
          (forecastLevel [((2020 : ℕ), (100 : ℤ)), (2023, 130)])) :=
  ⟨by decide,
   forecast_horizon_complete_and_monotone [((2020 : ℕ), (100 : ℤ)), (2023, 130)] (by decide)⟩

/-- Claim C2: for every forecastable level (at least 2 historical
observations, positive salaries), no value of the final trajectory - after
per-level forecasting and after group harmonization - is below the
level's last observed historical salary. -/
theorem forecast_never_below_last_observed (m : MasterData) (lvl : String)
    (fc : List (ℕ × ℤ))
    (hlk : List.lookup lvl (forecastProfession m "ENG") = some fc)
    (h2 : 2 ≤ (extractHistorical m "ENG" lvl).length)
    (hpos : 0 < lastKnownSalary (extractHistorical m "ENG" lvl)) :
    ∀ y v, (y, v) ∈ fc → lastKnownSalary (extractHistorical m "ENG" lvl) ≤ v := by
  intro y v hmem
  rw [forecastProfession, lookup_harmonize, lookup_rawForecasts] at hlk
  have hgen : genForecast m "ENG" lvl =
      some (forecastLevel (extractHistorical m "ENG" lvl)) := by
    rw [genForecast]
    exact if_neg (by omega)
  by_cases hemp : (growthFactors m "ENG" (rawForecasts m "ENG") "M").isEmpty
  · rw [if_pos hemp] at hlk
    by_cases hin : lvl ∈ engLevels
    · rw [if_pos hin, hgen] at hlk
      have hfc : fc = forecastLevel (extractHistorical m "ENG" lvl) :=
        (Option.some.inj hlk).symm
      subst hfc
      exact forecastLevel_mem_ge _ y v hmem
    · rw [if_neg hin] at hlk
      exact absurd hlk (by simp)
  · rw [if_neg hemp] at hlk
    by_cases hin : lvl ∈ engLevels
    · rw [if_pos hin, hgen] at hlk
      simp only [Option.map_some'] at hlk
      have hfc : fc = adjustLevel m "ENG"
          (npMedian (growthFactors m "ENG" (rawForecasts m "ENG") "M")) "M" lvl
          (forecastLevel (extractHistorical m "ENG" lvl)) :=
        (Option.some.inj hlk).symm
      simp only [adjustLevel] at hfc
      split_ifs at hfc with hstart hempty hlow
      · subst hfc
        exact forecastLevel_mem_ge _ y v hmem
      · -- replaced by the straight-line interpolation
        obtain ⟨v30, hv30, hge30⟩ :=
          forecastLevel_lookup_2030 (extractHistorical m "ENG" lvl)
        have hpred : predFinal (forecastLevel (extractHistorical m "ENG" lvl))
            ((lastKnownSalary (extractHistorical m "ENG" lvl) : ℤ) : ℚ) = (v30 : ℚ) := by
          rw [predFinal, hv30]
        rw [hpred] at hlow
        have htle : ((lastKnownSalary (extractHistorical m "ENG" lvl) : ℤ) : ℚ) ≤
            ((lastKnownSalary (extractHistorical m "ENG" lvl) : ℤ) : ℚ) *
              npMedian (growthFactors m "ENG" (rawForecasts m "ENG") "M") := by
          have : ((lastKnownSalary (extractHistorical m "ENG" lvl) : ℤ) : ℚ) ≤ (v30 : ℚ) := by
            exact_mod_cast hge30
          linarith
        subst hfc
        exact interpTraj_ge _ _ htle y v hmem
      · subst hfc
        exact forecastLevel_mem_ge _ y v hmem
      · subst hfc
        exact forecastLevel_mem_ge _ y v hmem
    · rw [if_neg hin] at hlk
      exact absurd hlk (by simp)

/-- Claim C4: each horizon year's accepted value equals the blended
two-model prediction (mean of the degree-2 polynomial and OLS line
predictions at the year's normalized offset), clamped up to the previous
accepted value if lower, rounded, and carried forward - the recurrence
`specAccepted` written from the spec's steps 4-6. -/
theorem forecast_blend_clamp_round_recurrence (hist : List (ℕ × ℤ)) (i : ℕ)
    (hi : i < 7) :
    List.lookup (2024 + i) (forecastLevel hist) = some (specAccepted hist i) := by
  interval_cases i <;> rfl

/-- Claim C7: a level appears in the forecast set exactly when it is one
of the iterated ENG levels and has at least 2 historical observations;
in particular a level with fewer than 2 observations is silently skipped
(the total function returns, no error) and the remaining levels are kept. -/
theorem forecast_skips_short_series (m : MasterData) (lvl : String) :
    (List.lookup lvl (forecastProfession m "ENG")).isSome = true ↔
      lvl ∈ engLevels ∧ 2 ≤ (extractHistorical m "ENG" lvl).length := by
  rw [forecastProfession, lookup_harmonize, lookup_rawForecasts]
  by_cases hemp : (growthFactors m "ENG" (rawForecasts m "ENG") "M").isEmpty
  · rw [if_pos hemp]
    by_cases hin : lvl ∈ engLevels
    · rw [if_pos hin, genForecast]
      by_cases hlen : (extractHistorical m "ENG" lvl).length < 2
      · rw [if_pos hlen]
        simp [hin]
        omega
      · rw [if_neg hlen]
        simp [hin]
        omega
    · rw [if_neg hin]
      simp [hin]
  · rw [if_neg hemp]
    by_cases hin : lvl ∈ engLevels
    · rw [if_pos hin, genForecast]
      by_cases hlen : (extractHistorical m "ENG" lvl).length < 2
      · rw [if_pos hlen]
        simp [hin]
        omega
      · rw [if_neg hlen]
        simp [hin]
        omega
    · rw [if_neg hin]
      simp [hin]

/-- Claim C9: the forecasting run produces forecasts only for profession
ENG and only for levels in the fixed ten-level list (so P6 and GEO levels
never appear), and harmonization is invoked with group prefix `"M"` only,
so a forecast whose level does not start with `"M"` is exactly the
unmodified per-level forecast. -/
theorem forecast_output_shape (m : MasterData) :
    (∀ prof, prof ≠ "ENG" → List.lookup prof (forecastAll m) = none) ∧
    (∀ lvl fc, List.lookup lvl (forecastProfession m "ENG") = some fc →
      lvl ∈ engLevels) ∧
    List.lookup "P6" (forecastProfession m "ENG") = none ∧
    (∀ lvl fc, List.lookup lvl (forecastProfession m "ENG") = some fc →
      strStarts lvl "M" = false →
      fc = forecastLevel (extractHistorical m "ENG" lvl)) := by
  have hchar : ∀ lvl, List.lookup lvl (forecastProfession m "ENG") =
      if (growthFactors m "ENG" (rawForecasts m "ENG") "M").isEmpty then
        (if lvl ∈ engLevels then genForecast m "ENG" lvl else none)
      else ((if lvl ∈ engLevels then genForecast m "ENG" lvl else none)).map
        (adjustLevel m "ENG"
          (npMedian (growthFactors m "ENG" (rawForecasts m "ENG") "M")) "M" lvl) := by
    intro lvl
    rw [forecastProfession, lookup_harmonize, lookup_rawForecasts]
  refine ⟨?_, ?_, ?_, ?_⟩
  · intro prof hne
    rw [forecastAll]
    simp [List.lookup, beq_eq_false_iff_ne.mpr hne]
  · intro lvl fc hlk
    by_cases hin : lvl ∈ engLevels
    · exact hin
    · rw [hchar] at hlk
      simp only [if_neg hin] at hlk
      split_ifs at hlk <;> simp at hlk
  · rw [hchar]
    have hn : "P6" ∉ engLevels := by decide
    simp only [if_neg hn]
    split_ifs <;> simp
  · intro lvl fc hlk hstart
    have hgen : ∀ fc0, genForecast m "ENG" lvl = some fc0 →
        fc0 = forecastLevel (extractHistorical m "ENG" lvl) := by
      intro fc0 h0
      rw [genForecast] at h0
      by_cases hlen : (extractHistorical m "ENG" lvl).length < 2
      · rw [if_pos hlen] at h0
        exact absurd h0 (by simp)
      · rw [if_neg hlen] at h0
        exact (Option.some.inj h0).symm
    rw [hchar] at hlk
    by_cases hin : lvl ∈ engLevels
    · simp only [if_pos hin] at hlk
      by_cases hemp : (growthFactors m "ENG" (rawForecasts m "ENG") "M").isEmpty
      · rw [if_pos hemp] at hlk
        exact hgen fc hlk
      · rw [if_neg hemp] at hlk
        cases h0 : genForecast m "ENG" lvl with
        | none => rw [h0] at hlk; exact absurd hlk (by simp)
        | some fc0 =>
            rw [h0] at hlk
            simp only [Option.map_some'] at hlk
            have hfc0 := hgen fc0 h0
            have hfc : fc = adjustLevel m "ENG"
                (npMedian (growthFactors m "ENG" (rawForecasts m "ENG") "M")) "M" lvl fc0 :=
              (Option.some.inj hlk).symm
            rw [adjustLevel, hstart] at hfc
            simp at hfc
            rw [hfc, hfc0]
    · simp only [if_neg hin] at hlk
      split_ifs at hlk <;> simp at hlk

theorem growthFactors_eq_filter (m : MasterData) (prof : String)
    (sbl : List (String × List (ℕ × ℤ))) (g : String) :
    growthFactors m prof sbl g =
      (growthFactorsAll m prof sbl g).filter
        (fun f => decide ((0.2 : ℚ) < f ∧ f < 10)) := by
  induction sbl with
  | nil => rfl
  | cons p sbl ih =>
      simp only [growthFactors, growthFactorsAll, List.filterMap_cons] at ih ⊢
      split_ifs with h1 h2 h3 h4
      · exact ih
      · simp only [List.filter_cons]
        rw [if_pos (by simpa using h4)]
        rw [ih]
      · simp only [List.filter_cons]
        rw [if_neg (by simpa using h4)]
        exact ih
      · exact ih
      · exact ih

theorem interpTraj_map_fst (l t : ℚ) :
    (interpTraj l t).map Prod.fst = horizonYears := by
  rw [interpTraj, List.map_map]
  show (List.range 7).map (fun i => 2024 + i) = horizonYears
  decide

theorem interpTraj_lookup_2030 (l t : ℚ) :
    List.lookup 2030 (interpTraj l t) = some (pyRound t) := by
  have h7 : List.range 7 = [0, 1, 2, 3, 4, 5, 6] := by decide
  rw [interpTraj, h7]
  simp only [List.map_cons, List.map_nil, List.lookup]
  norm_num
  rfl

/-- Claim C5: the group's target growth factor is the median of exactly
the collected factors lying strictly inside `(0.2, 10)`: every factor at
or below `0.2` or at or above `10` is discarded before the median. -/
theorem harmonize_median_ignores_outliers (m : MasterData) (prof : String)
    (sbl : List (String × List (ℕ × ℤ))) (g : String) :
    growthFactors m prof sbl g =
      (growthFactorsAll m prof sbl g).filter
        (fun f => decide ((0.2 : ℚ) < f ∧ f < 10)) ∧
    medianFactor m prof sbl g =
      npMedian ((growthFactorsAll m prof sbl g).filter
        (fun f => decide ((0.2 : ℚ) < f ∧ f < 10))) :=
  ⟨growthFactors_eq_filter m prof sbl g,
   by rw [medianFactor, growthFactors_eq_filter]⟩

/-- Claim C3: in group harmonization with a nonempty factor list, a group
level (with history and positive last known value) whose final-year
growth factor is below the group median has its whole 2024-2030
trajectory replaced by the straight-line interpolation (final year equal
to `last_known * median_factor` up to rounding), while a level at or
above the median keeps its forecast unchanged. -/
theorem harmonize_below_median_replaced (m : MasterData) (prof : String)
    (sbl : List (String × List (ℕ × ℤ))) (g lvl : String) (fc : List (ℕ × ℤ))
    (lst : ℤ) (mf : ℚ)
    (hlst : lst = lastKnownSalary (extractHistorical m prof lvl))
    (hmf : mf = medianFactor m prof sbl g)
    (hne : (growthFactors m prof sbl g).isEmpty = false)
    (hlk : List.lookup lvl sbl = some fc)
    (hg : strStarts lvl g = true)
    (hhist : (extractHistorical m prof lvl).isEmpty = false)
    (hpos : 0 < lst) :
    (predFinal fc (lst : ℚ) / (lst : ℚ) < mf →
      List.lookup lvl (harmonizeGroupGrowth m prof sbl g) =
          some (interpTraj (lst : ℚ) ((lst : ℚ) * mf)) ∧
        List.lookup 2030 (interpTraj (lst : ℚ) ((lst : ℚ) * mf)) =
          some (pyRound ((lst : ℚ) * mf)) ∧
        (interpTraj (lst : ℚ) ((lst : ℚ) * mf)).map Prod.fst = horizonYears) ∧
    (mf ≤ predFinal fc (lst : ℚ) / (lst : ℚ) →
      List.lookup lvl (harmonizeGroupGrowth m prof sbl g) = some fc) := by
  have hposq : (0 : ℚ) < (lst : ℚ) := by exact_mod_cast hpos
  have hlkh : List.lookup lvl (harmonizeGroupGrowth m prof sbl g) =
      some (adjustLevel m prof (npMedian (growthFactors m prof sbl g)) g lvl fc) := by
    rw [lookup_harmonize, if_neg (by simp [hne]), hlk, Option.map_some']
  have hadj : adjustLevel m prof (npMedian (growthFactors m prof sbl g)) g lvl fc =
      if predFinal fc (lst : ℚ) < (lst : ℚ) * mf then
        interpTraj (lst : ℚ) ((lst : ℚ) * mf) else fc := by
    rw [adjustLevel, hg]
    simp only [if_true]
    rw [if_neg (by simp [hhist])]
    rw [← hlst, ← medianFactor, ← hmf]
  constructor
  · intro hlow
    have hlow' : predFinal fc (lst : ℚ) < (lst : ℚ) * mf := by
      rw [div_lt_iff hposq] at hlow
      linarith [hlow]
    rw [hlkh, hadj, if_pos hlow']
    exact ⟨rfl, interpTraj_lookup_2030 _ _, interpTraj_map_fst _ _⟩
  · intro hhigh
    have hhigh' : ¬ predFinal fc (lst : ℚ) < (lst : ℚ) * mf := by
      rw [le_div_iff hposq] at hhigh
      intro hcon
      linarith [hhigh]
    rw [hlkh, hadj, if_neg hhigh']

/-- Claim C6: on a text sample containing `"169 organizations"` the
extractor sets the organization count to 169, and on a sample containing
`"92% Engineers 8% Geoscientists"` it sets the gender split to
engineers 92, geoscientists 8. -/
theorem extraction_org_count_and_gender_split :
    extractNumOrganizations
        ("A total of 169 organizations participated in the 2023 survey".data) =
      some 169 ∧
    extractGenderSplit ("Respondents: 92% Engineers 8% Geoscientists".data) =
      some (92, 8) := by
  constructor
  · decide
  · decide

theorem scanCells_range : ∀ (row : TRow) (v : ℕ), scanCells row = some v →
    20000 ≤ v ∧ v ≤ 300000
  | [], v, h => by simp [scanCells] at h
  | none :: cs, v, h => scanCells_range cs v h
  | some [] :: cs, v, h => scanCells_range cs v h
  | some (c :: rest) :: cs, v, h => by
      rw [scanCells] at h
      rcases hr : firstNumRun (c :: rest) with _ | run
      · simp only [hr] at h
        exact scanCells_range cs v h
      · simp only [hr] at h
        rcases hn : numValOf run with _ | w
        · simp only [hn] at h
          exact scanCells_range cs v h
        · simp only [hn] at h
          split_ifs at h with hin
          · cases h
            exact hin
          · exact scanCells_range cs v h

theorem insertAbsent_inv (k : String) (v : ℕ) (d : List (String × ℕ))
    (hd : ∀ q ∈ d, 20000 ≤ q.2 ∧ q.2 ≤ 300000)
    (hv : 20000 ≤ v ∧ v ≤ 300000) :
    ∀ q ∈ insertAbsent k v d, 20000 ≤ q.2 ∧ q.2 ≤ 300000 := by
  intro q hq
  rw [insertAbsent] at hq
  split_ifs at hq
  · exact hd q hq
  · rcases List.mem_append.mp hq with h | h
    · exact hd q h
    · rw [List.mem_singleton.mp h]
      exact hv

theorem processRow_inv (row : TRow) (d : List (String × ℕ))
    (hd : ∀ q ∈ d, 20000 ≤ q.2 ∧ q.2 ≤ 300000) :
    ∀ q ∈ processRow row d, 20000 ≤ q.2 ∧ q.2 ≤ 300000 := by
  rw [processRow]
  have hgen : ∀ (ls : List String) (d0 : List (String × ℕ)),
      (∀ q ∈ d0, 20000 ≤ q.2 ∧ q.2 ≤ 300000) →
      ∀ q ∈ ls.foldl (fun d lvl =>
        if containsSub (rowText row) lvl.data then
          match scanCells row with
          | some v => insertAbsent lvl v d
          | none => d
        else d) d0, 20000 ≤ q.2 ∧ q.2 ≤ 300000 := by
    intro ls
    induction ls with
    | nil => intro d0 hd0 q hq; exact hd0 q hq
    | cons l ls ih =>
        intro d0 hd0 q hq
        rw [List.foldl_cons] at hq
        refine ih _ ?_ q hq
        split_ifs
        · rcases hs : scanCells row with _ | v
          · exact hd0
          · exact insertAbsent_inv l v d0 hd0 (scanCells_range row v hs)
        · exact hd0
  exact hgen levelNames d hd

theorem processTable_inv (t : PTable) (accE accG : List (String × ℕ))
    (hE : ∀ q ∈ accE, 20000 ≤ q.2 ∧ q.2 ≤ 300000)
    (hG : ∀ q ∈ accG, 20000 ≤ q.2 ∧ q.2 ≤ 300000) :
    (∀ q ∈ (processTable t accE accG).1, 20000 ≤ q.2 ∧ q.2 ≤ 300000) ∧
    (∀ q ∈ (processTable t accE accG).2, 20000 ≤ q.2 ∧ q.2 ≤ 300000) := by
  have hfold : ∀ (rows : List TRow) (d0 : List (String × ℕ)),
      (∀ q ∈ d0, 20000 ≤ q.2 ∧ q.2 ≤ 300000) →
      ∀ q ∈ rows.foldl (fun d row => processRow row d) d0,
        20000 ≤ q.2 ∧ q.2 ≤ 300000 := by
    intro rows
    induction rows with
    | nil => intro d0 hd0 q hq; exact hd0 q hq
    | cons r rows ih =>
        intro d0 hd0 q hq
        rw [List.foldl_cons] at hq
        exact ih _ (processRow_inv r d0 hd0) q hq
  rw [processTable]
  by_cases h1 : t.length < 2
  · rw [if_pos h1]
    exact ⟨hE, hG⟩
  · rw [if_neg h1]
    by_cases h2 : hasSalaryData (tableText t) = true
    · rcases hp : professionOf (tableText t) with _ | prof
      · simp only [h2, if_true, hp]
        exact ⟨hE, hG⟩
      · by_cases hprof : prof = "ENG"
        · subst hprof
          simp only [h2, if_true, hp, if_pos rfl]
          exact ⟨hfold t accE hE, hG⟩
        · simp only [h2, if_true, hp, if_neg hprof]
          exact ⟨hE, hfold t accG hG⟩
    · rw [Bool.not_eq_true] at h2
      simp only [h2, Bool.false_eq_true, if_false]
      exact ⟨hE, hG⟩

/-- Claim C10: every per-level salary value accumulated by the table
parser lies in the closed range `[20000, 300000]`: the extraction guard
rejects any numeric token outside these bounds, so no out-of-range value
reaches the per-year salary dictionaries that feed the master dataset. -/
theorem stored_salaries_in_range (ts : List PTable)
    (accE accG : List (String × ℕ))
    (hE : ∀ q ∈ accE, 20000 ≤ q.2 ∧ q.2 ≤ 300000)
    (hG : ∀ q ∈ accG, 20000 ≤ q.2 ∧ q.2 ≤ 300000) :
    (∀ q ∈ (processTables ts accE accG).1, 20000 ≤ q.2 ∧ q.2 ≤ 300000) ∧
    (∀ q ∈ (processTables ts accE accG).2, 20000 ≤ q.2 ∧ q.2 ≤ 300000) := by
  induction ts generalizing accE accG with
  | nil => exact ⟨hE, hG⟩
  | cons t ts ih =>
      have hstep := processTable_inv t accE accG hE hG
      exact ih _ _ hstep.1 hstep.2

theorem stored_salaries_in_range_wit :
    (∀ q ∈ ([] : List (String × ℕ)), 20000 ≤ q.2 ∧ q.2 ≤ 300000) ∧
      (∀ q ∈ (processTables [sampleTable] [] []).1,
        20000 ≤ q.2 ∧ q.2 ≤ 300000) :=
  ⟨by simp,
   (stored_salaries_in_range [sampleTable] [] [] (by simp) (by simp)).1⟩

theorem sampleForecast_eval :
    forecastLevel (extractHistorical sampleMaster "ENG" "P1") = sampleForecast := by
  norm_num [forecastLevel, forecastLoop, horizonYears, blendPredict, poly2Predict,
    poly2Coeffs, powSum, mixSum, det3, olsPredict, olsSlope, olsIntercept, histXs, histYs,
    sortHist, insSort, insSort.insOrd, firstYearQ, lastKnownSalary, extractHistorical,
    sampleMaster, pyRound, round_eq, List.lookup, sampleForecast, div_zero,
    Int.floor_intCast]

theorem sample_forecast_lookup :
    List.lookup "P1" (forecastProfession sampleMaster "ENG") = some sampleForecast := by
  have h0 : List.lookup "P1" (forecastProfession sampleMaster "ENG") =
      some (forecastLevel (extractHistorical sampleMaster "ENG" "P1")) := rfl
  rw [h0, sampleForecast_eval]

theorem forecast_never_below_last_observed_wit :
    List.lookup "P1" (forecastProfession sampleMaster "ENG") = some sampleForecast ∧
    2 ≤ (extractHistorical sampleMaster "ENG" "P1").length ∧
    0 < lastKnownSalary (extractHistorical sampleMaster "ENG" "P1") ∧
    ∀ y v, (y, v) ∈ sampleForecast →
      lastKnownSalary (extractHistorical sampleMaster "ENG" "P1") ≤ v :=
  ⟨sample_forecast_lookup, by decide, by decide,
   forecast_never_below_last_observed sampleMaster "P1" sampleForecast
     sample_forecast_lookup (by decide) (by decide)⟩

theorem forecast_blend_clamp_round_recurrence_wit :
    (0 : ℕ) < 7 ∧
    List.lookup (2024 + 0) (forecastLevel [((2020 : ℕ), (100 : ℤ)), (2023, 130)]) =
      some (specAccepted [((2020 : ℕ), (100 : ℤ)), (2023, 130)] 0) :=
  ⟨by decide,
   forecast_blend_clamp_round_recurrence [((2020 : ℕ), (100 : ℤ)), (2023, 130)] 0
     (by decide)⟩

theorem forecast_output_shape_wit :
    List.lookup "GEO" (forecastAll sampleMaster) = none ∧
    List.lookup "P6" (forecastProfession sampleMaster "ENG") = none ∧
    strStarts "P1" "M" = false ∧
    sampleForecast = forecastLevel (extractHistorical sampleMaster "ENG" "P1") :=
  ⟨(forecast_output_shape sampleMaster).1 "GEO" (by decide),
   (forecast_output_shape sampleMaster).2.2.1,
   by decide,
   (forecast_output_shape sampleMaster).2.2.2 "P1" sampleForecast
     sample_forecast_lookup (by decide)⟩

theorem harmonyFactors_eval :
    growthFactors harmonyMaster "ENG" harmonySbl "M" = [11/10, 3/2, 2] := by
  norm_num +decide [growthFactors, extractHistorical, sortHist, insSort, insSort.insOrd,
    lastKnownSalary, predFinal, strStarts, harmonySbl, harmonyMaster, List.lookup,
    List.filterMap_cons, List.isPrefixOf]

theorem harmonyMedian_eval :
    medianFactor harmonyMaster "ENG" harmonySbl "M" = 3/2 := by
  rw [medianFactor, harmonyFactors_eval]
  norm_num [npMedian, insSort, insSort.insOrd]

theorem harmonize_below_median_replaced_wit :
    (growthFactors harmonyMaster "ENG" harmonySbl "M").isEmpty = false ∧
    List.lookup "M1" harmonySbl = some [(2030, 110)] ∧
    predFinal [((2030 : ℕ), (110 : ℤ))] ((100 : ℤ) : ℚ) / ((100 : ℤ) : ℚ) <
      medianFactor harmonyMaster "ENG" harmonySbl "M" ∧
    List.lookup "M1" (harmonizeGroupGrowth harmonyMaster "ENG" harmonySbl "M") =
      some (interpTraj ((100 : ℤ) : ℚ)
        (((100 : ℤ) : ℚ) * medianFactor harmonyMaster "ENG" harmonySbl "M")) := by
  have hne : (growthFactors harmonyMaster "ENG" harmonySbl "M").isEmpty = false := by
    rw [harmonyFactors_eval]
    rfl
  have hlow : predFinal [((2030 : ℕ), (110 : ℤ))] ((100 : ℤ) : ℚ) / ((100 : ℤ) : ℚ) <
      medianFactor harmonyMaster "ENG" harmonySbl "M" := by
    rw [harmonyMedian_eval]
    norm_num [predFinal, List.lookup]
  refine ⟨hne, by decide, hlow, ?_⟩
  exact ((harmonize_below_median_replaced harmonyMaster "ENG" harmonySbl "M" "M1"
    [(2030, 110)] 100 (medianFactor harmonyMaster "ENG" harmonySbl "M")
    (by decide) rfl hne (by decide) (by decide) (by decide) (by decide)).1 hlow).1

/-! ### Round-trip lemmas for the JSON printer and parser -/

theorem digitChar_props : ∀ d : ℕ,
    isJWs (digitChar d) = false ∧ (digitChar d).isDigit = true ∧
    wfChar (digitChar d) = true ∧
    digitChar d ≠ 'n' ∧ digitChar d ≠ '"' ∧ digitChar d ≠ '-' ∧
    digitChar d ≠ '[' ∧ digitChar d ≠ '{' ∧ digitChar d ≠ ']' ∧
    digitChar d ≠ '}' ∧ digitChar d ≠ ',' ∧ digitChar d ≠ ':'
  | 0 => by decide
  | 1 => by decide
  | 2 => by decide
  | 3 => by decide
  | 4 => by decide
  | 5 => by decide
  | 6 => by decide
  | 7 => by decide
  | 8 => by decide
  | _ + 9 => by
      exact (by decide :
        isJWs '9' = false ∧ ('9').isDigit = true ∧ wfChar '9' = true ∧
        ('9' : Char) ≠ 'n' ∧ ('9' : Char) ≠ '"' ∧ ('9' : Char) ≠ '-' ∧
        ('9' : Char) ≠ '[' ∧ ('9' : Char) ≠ '{' ∧ ('9' : Char) ≠ ']' ∧
        ('9' : Char) ≠ '}' ∧ ('9' : Char) ≠ ',' ∧ ('9' : Char) ≠ ':')

theorem digitVal_digitChar (d : ℕ) (h : d < 10) : digitVal (digitChar d) = d := by
  interval_cases d <;> rfl

theorem printNatAux_eq (n : ℕ) : ∀ acc : List Char,
    printNatAux n acc = printNat n ++ acc := by
  induction n using Nat.strong_induction_on with
  | _ n ih =>
    intro acc
    by_cases h : n < 10
    · rw [printNat, printNatAux, if_pos h, printNatAux, if_pos h]
      rfl
    · have hlt : n / 10 < n := Nat.div_lt_self (by omega) (by omega)
      rw [printNatAux, if_neg h, ih (n / 10) hlt]
      conv_rhs => rw [printNat, printNatAux]
      rw [if_neg h, ih (n / 10) hlt]
      simp

theorem printNat_mem (n : ℕ) : ∀ c ∈ printNat n, ∃ d, c = digitChar d := by
  induction n using Nat.strong_induction_on with
  | _ n ih =>
    intro c hc
    by_cases h : n < 10
    · rw [printNat, printNatAux, if_pos h] at hc
      rcases List.mem_singleton.mp hc with rfl
      exact ⟨n, rfl⟩
    · have hlt : n / 10 < n := Nat.div_lt_self (by omega) (by omega)
      rw [printNat, printNatAux, if_neg h, printNatAux_eq] at hc
      rcases List.mem_append.mp hc with h1 | h1
      · exact ih (n / 10) hlt c h1
      · rcases List.mem_singleton.mp h1 with rfl
        exact ⟨n % 10, rfl⟩

theorem printNat_ne_nil (n : ℕ) : printNat n ≠ [] := by
  by_cases h : n < 10
  · rw [printNat, printNatAux, if_pos h]
    exact List.cons_ne_nil _ _
  · rw [printNat, printNatAux, if_neg h, printNatAux_eq]
    simp

theorem printNat_cons (n : ℕ) : ∃ d t, printNat n = digitChar d :: t := by
  rcases hp : printNat n with _ | ⟨c, t⟩
  · exact absurd hp (printNat_ne_nil n)
  · have hc : c ∈ printNat n := by rw [hp]; exact List.mem_cons_self _ _
    rcases printNat_mem n c hc with ⟨d, rfl⟩
    exact ⟨d, t, rfl⟩

theorem digitsVal_append_singleton (xs : List Char) (c : Char) :
    digitsVal (xs ++ [c]) = digitsVal xs * 10 + digitVal c := by
  rw [digitsVal, digitsVal, List.foldl_append]
  rfl

theorem digitsVal_printNat (n : ℕ) : digitsVal (printNat n) = n := by
  induction n using Nat.strong_induction_on with
  | _ n ih =>
    by_cases h : n < 10
    · rw [printNat, printNatAux, if_pos h]
      have h1 : digitsVal [digitChar n] = digitVal (digitChar n) := by
        simp [digitsVal]
      rw [h1, digitVal_digitChar n h]
    · have hlt : n / 10 < n := Nat.div_lt_self (by omega) (by omega)
      rw [printNat, printNatAux, if_neg h, printNatAux_eq,
        digitsVal_append_singleton, ih (n / 10) hlt,
        digitVal_digitChar (n % 10) (Nat.mod_lt _ (by omega))]
      omega

theorem skipWs_cons {c : Char} (cs : List Char) (h : isJWs c = false) :
    skipWs (c :: cs) = c :: cs := by
  rw [skipWs, h]
  simp

theorem takeDigits_append : ∀ (ds rest : List Char),
    (∀ c ∈ ds, c.isDigit = true) →
    (∀ c, rest.head? = some c → c.isDigit = false) →
    takeDigits (ds ++ rest) = (ds, rest)
  | [], [], _, _ => rfl
  | [], c :: t, _, hrest => by
      rw [List.nil_append, takeDigits, hrest c rfl]
      simp
  | d :: ds, rest, hds, hrest => by
      rw [List.cons_append, takeDigits, hds d (List.mem_cons_self _ _)]
      simp only [if_true]
      rw [takeDigits_append ds rest (fun c hc => hds c (List.mem_cons_of_mem _ hc)) hrest]

theorem takeStr_append : ∀ (s r : List Char), (∀ c ∈ s, c ≠ '"') →
    takeStr (s ++ '"' :: r) = some (s, r)
  | [], r, _ => by
      rw [List.nil_append, takeStr]
      simp
  | c :: s, r, hs => by
      rw [List.cons_append, takeStr]
      rw [if_neg (hs c (List.mem_cons_self _ _))]
      rw [takeStr_append s r (fun x hx => hs x (List.mem_cons_of_mem _ hx))]

theorem wfStr_ne_quote {s : List Char} (h : wfStr s = true) :
    ∀ c ∈ s, c ≠ '"' := by
  intro c hc
  have := (List.all_eq_true.mp h) c hc
  rw [wfChar, decide_eq_true_eq] at this
  exact this.1

theorem printJson_head : ∀ j : Json, ∃ c t, printJson j = c :: t ∧
    isJWs c = false ∧ c ≠ ']' ∧ c ≠ '}' := by
  intro j
  cases j with
  | null => exact ⟨'n', _, rfl, by decide, by decide, by decide⟩
  | num i =>
      by_cases hneg : i < 0
      · refine ⟨'-', printNat i.natAbs, ?_, by decide, by decide, by decide⟩
        simp [printJson, printInt, if_pos hneg]
      · obtain ⟨d, t, hpc⟩ := printNat_cons i.natAbs
        refine ⟨digitChar d, t, ?_, (digitChar_props d).1,
          (digitChar_props d).2.2.2.2.2.2.2.2.1,
          (digitChar_props d).2.2.2.2.2.2.2.2.2.1⟩
        simp [printJson, printInt, if_neg hneg, hpc]
  | str s => exact ⟨'"', _, rfl, by decide, by decide, by decide⟩
  | arr xs => exact ⟨'[', _, rfl, by decide, by decide, by decide⟩
  | obj kvs => exact ⟨'{', _, rfl, by decide, by decide, by decide⟩

theorem printItems_head (x : Json) (xs : List Json) : ∃ c t,
    printItems (x :: xs) = c :: t ∧ isJWs c = false ∧ c ≠ ']' ∧ c ≠ '}' := by
  obtain ⟨c, t, hct, h1, h2, h3⟩ := printJson_head x
  cases xs with
  | nil => exact ⟨c, t, by rw [printItems, hct], h1, h2, h3⟩
  | cons y ys =>
      refine ⟨c, t ++ ',' :: printItems (y :: ys), ?_, h1, h2, h3⟩
      show printJson x ++ ',' :: printItems (y :: ys) = _
      rw [hct, List.cons_append]

theorem parse_print_roundtrip : ∀ fuel : ℕ,
    (∀ j, wfJson j = true → jsizeJ j ≤ fuel → ∀ rest, restOk j rest →
      parseJ fuel (printJson j ++ rest) = some (j, rest)) ∧
    (∀ xs, xs ≠ [] → wfItems xs = true → jsizeL xs ≤ fuel → ∀ rest,
      parseItems fuel (printItems xs ++ ']' :: rest) = some (xs, rest)) ∧
    (∀ kvs, kvs ≠ [] → wfMembers kvs = true → jsizeM kvs ≤ fuel → ∀ rest,
      parseMembers fuel (printMembers kvs ++ '}' :: rest) = some (kvs, rest)) := by
  intro fuel
  induction fuel with
  | zero =>
      refine ⟨?_, ?_, ?_⟩
      · intro j _ hs
        have h1 : 1 ≤ jsizeJ j := by cases j <;> simp [jsizeJ]
        exact absurd hs (by omega)
      · intro xs hne _ hs
        rcases xs with _ | ⟨x, xs⟩
        · exact absurd rfl hne
        · have h1 : 1 ≤ jsizeL (x :: xs) := by
            simp only [jsizeL]
            omega
          exact absurd hs (by omega)
      · intro kvs hne _ hs
        rcases kvs with _ | ⟨⟨k, v⟩, kvs⟩
        · exact absurd rfl hne
        · have h1 : 1 ≤ jsizeM ((k, v) :: kvs) := by
            simp only [jsizeM]
            omega
          exact absurd hs (by omega)
  | succ f ih =>
      obtain ⟨ihJ, ihL, ihM⟩ := ih
      have hdigits : ∀ n : ℕ, ∀ c ∈ printNat n, c.isDigit = true := by
        intro n c hc
        rcases printNat_mem n c hc with ⟨e, rfl⟩
        exact (digitChar_props e).2.1
      refine ⟨?_, ?_, ?_⟩
      · intro j hwf hs rest hr
        cases j with
        | null => rfl
        | num i =>
            have hrest : ∀ c, rest.head? = some c → c.isDigit = false := by
              intro c hc
              rcases rest with _ | ⟨r0, rt⟩
              · simp at hc
              · simp only [List.head?] at hc
                cases hc
                exact hr
            by_cases hneg : i < 0
            · have hpr : printJson (Json.num i) = '-' :: printNat i.natAbs := by
                simp [printJson, printInt, if_pos hneg]
              rw [hpr, List.cons_append]
              show (match takeDigits (printNat i.natAbs ++ rest) with
                | ([], _) => none
                | (ds, r) => some (Json.num (-(digitsVal ds : ℤ)), r)) =
                some (Json.num i, rest)
              rw [takeDigits_append (printNat i.natAbs) rest (hdigits _) hrest]
              obtain ⟨d, t, hpc⟩ := printNat_cons i.natAbs
              rw [hpc]
              show some (Json.num (-(digitsVal (digitChar d :: t) : ℤ)), rest) =
                some (Json.num i, rest)
              rw [← hpc, digitsVal_printNat]
              have hi : -((i.natAbs : ℕ) : ℤ) = i := by omega
              rw [hi]
            · obtain ⟨d, t, hpc⟩ := printNat_cons i.natAbs
              have hpr : printJson (Json.num i) = digitChar d :: t := by
                simp [printJson, printInt, if_neg hneg, hpc]
              rw [hpr, List.cons_append, parseJ,
                skipWs_cons _ (digitChar_props d).1]
              simp only [if_neg (digitChar_props d).2.2.2.1,
                if_neg (digitChar_props d).2.2.2.2.1,
                if_neg (digitChar_props d).2.2.2.2.2.1,
                if_pos (digitChar_props d).2.1]
              rw [← List.cons_append, ← hpc,
                takeDigits_append (printNat i.natAbs) rest (hdigits _) hrest]
              rw [hpc]
              show some (Json.num ((digitsVal (digitChar d :: t) : ℤ)), rest) =
                some (Json.num i, rest)
              rw [← hpc, digitsVal_printNat]
              have hi : ((i.natAbs : ℕ) : ℤ) = i := by omega
              rw [hi]
        | str s =>
            have hchars : ∀ c ∈ s, c ≠ '"' := wfStr_ne_quote (by simpa [wfJson] using hwf)
            have hpr : printJson (Json.str s) ++ rest = '"' :: (s ++ '"' :: rest) := by
              show '"' :: ((s ++ ['"']) ++ rest) = '"' :: (s ++ '"' :: rest)
              rw [List.append_assoc]
              rfl
            rw [hpr]
            show (takeStr (s ++ '"' :: rest)).map (fun p => (Json.str p.1, p.2)) =
              some (Json.str s, rest)
            rw [takeStr_append s rest hchars]
            rfl
        | arr xs =>
            rcases xs with _ | ⟨x, xs⟩
            · rfl
            · have hpr : printJson (Json.arr (x :: xs)) ++ rest =
                  '[' :: (printItems (x :: xs) ++ ']' :: rest) := by
                show '[' :: ((printItems (x :: xs) ++ [']']) ++ rest) = _
                rw [List.append_assoc]
                rfl
              rw [hpr]
              show (match skipWs (printItems (x :: xs) ++ ']' :: rest) with
                | ']' :: r => some (Json.arr [], r)
                | cs2 => (parseItems f cs2).map (fun p => (Json.arr p.1, p.2))) =
                some (Json.arr (x :: xs), rest)
              obtain ⟨c, t, hct, hcw, hcrb, _⟩ := printItems_head x xs
              have hsk : skipWs (printItems (x :: xs) ++ ']' :: rest) =
                  printItems (x :: xs) ++ ']' :: rest := by
                rw [hct, List.cons_append, skipWs_cons _ hcw]
              have hwf2 : wfItems (x :: xs) = true := by simpa [wfJson] using hwf
              have hsz : jsizeL (x :: xs) ≤ f := by
                simp only [jsizeJ] at hs
                omega
              have hitems := ihL (x :: xs) (List.cons_ne_nil x xs) hwf2 hsz rest
              split
              · next r heq =>
                  rw [hsk, hct, List.cons_append] at heq
                  injection heq with h1 _
                  exact absurd h1 hcrb
              · rw [hsk, hitems]
                rfl
        | obj kvs =>
            rcases kvs with _ | ⟨⟨k, v⟩, kvs⟩
            · rfl
            · have hpr : printJson (Json.obj ((k, v) :: kvs)) ++ rest =
                  '{' :: (printMembers ((k, v) :: kvs) ++ '}' :: rest) := by
                show '{' :: ((printMembers ((k, v) :: kvs) ++ ['}']) ++ rest) = _
                rw [List.append_assoc]
                rfl
              rw [hpr]
              show (match skipWs (printMembers ((k, v) :: kvs) ++ '}' :: rest) with
                | '}' :: r => some (Json.obj [], r)
                | cs2 => (parseMembers f cs2).map (fun p => (Json.obj p.1, p.2))) =
                some (Json.obj ((k, v) :: kvs), rest)
              have hmh : ∃ t2, printMembers ((k, v) :: kvs) = '"' :: t2 := by
                rcases kvs with _ | ⟨⟨k2, v2⟩, kvs2⟩
                · exact ⟨_, rfl⟩
                · exact ⟨_, rfl⟩
              obtain ⟨t2, hmh⟩ := hmh
              have hsk : skipWs (printMembers ((k, v) :: kvs) ++ '}' :: rest) =
                  printMembers ((k, v) :: kvs) ++ '}' :: rest := by
                rw [hmh, List.cons_append, skipWs_cons _ (by decide)]
              have hwf2 : wfMembers ((k, v) :: kvs) = true := by simpa [wfJson] using hwf
              have hsz : jsizeM ((k, v) :: kvs) ≤ f := by
                simp only [jsizeJ] at hs
                omega
              have hmembers := ihM ((k, v) :: kvs) (List.cons_ne_nil _ _) hwf2 hsz rest
              split
              · next r heq =>
                  rw [hsk, hmh, List.cons_append] at heq
                  injection heq with h1 _
                  exact absurd h1 (by decide)
              · rw [hsk, hmembers]
                rfl
      · intro xs hne hwf hs rest
        rcases xs with _ | ⟨x, xs⟩
        · exact absurd rfl hne
        · have hwfx : wfJson x = true ∧ wfItems xs = true := by
            have := hwf
            rw [wfItems, Bool.and_eq_true] at this
            exact this
          rcases xs with _ | ⟨y, ys⟩
          · have hpr : printItems [x] ++ ']' :: rest = printJson x ++ ']' :: rest := by
              rw [printItems]
            have hrok : restOk x (']' :: rest) := by
              cases x <;> simp [restOk]
            have hszx : jsizeJ x ≤ f := by
              simp only [jsizeL] at hs
              omega
            rw [hpr, parseItems, ihJ x hwfx.1 hszx (']' :: rest) hrok]
            rfl
          · have hpr : printItems (x :: y :: ys) ++ ']' :: rest =
                printJson x ++ ',' :: (printItems (y :: ys) ++ ']' :: rest) := by
              show (printJson x ++ ',' :: printItems (y :: ys)) ++ ']' :: rest = _
              rw [List.append_assoc]
              rfl
            have hrok : restOk x (',' :: (printItems (y :: ys) ++ ']' :: rest)) := by
              cases x <;> simp [restOk]
            have hszx : jsizeJ x ≤ f := by
              simp only [jsizeL] at hs
              omega
            have hszl : jsizeL (y :: ys) ≤ f := by
              simp only [jsizeL] at hs ⊢
              omega
            rw [hpr, parseItems,
              ihJ x hwfx.1 hszx (',' :: (printItems (y :: ys) ++ ']' :: rest)) hrok]
            show (parseItems f (printItems (y :: ys) ++ ']' :: rest)).map
              (fun p => (x :: p.1, p.2)) = some (x :: y :: ys, rest)
            rw [ihL (y :: ys) (List.cons_ne_nil _ _) hwfx.2 hszl rest]
            rfl
      · intro kvs hne hwf hs rest
        rcases kvs with _ | ⟨⟨k, v⟩, kvs⟩
        · exact absurd rfl hne
        · have hwfx : wfStr k = true ∧ wfJson v = true ∧ wfMembers kvs = true := by
            have := hwf
            rw [wfMembers, Bool.and_eq_true, Bool.and_eq_true] at this
            exact ⟨this.1.1, this.1.2, this.2⟩
          have hkq := wfStr_ne_quote hwfx.1
          rcases kvs with _ | ⟨⟨k2, v2⟩, kvs2⟩
          · have hpr : printMembers [(k, v)] ++ '}' :: rest =
                '"' :: (k ++ '"' :: ':' :: (printJson v ++ '}' :: rest)) := by
              show ('"' :: (k ++ '"' :: ':' :: printJson v)) ++ '}' :: rest = _
              rw [List.cons_append, List.append_assoc]
              rfl
            have hrok : restOk v ('}' :: rest) := by
              cases v <;> simp [restOk]
            have hszv : jsizeJ v ≤ f := by
              simp only [jsizeM] at hs
              omega
            rw [hpr, parseMembers, skipWs_cons _ (by decide)]
            simp only [takeStr_append k _ hkq]
            show (match parseJ f (printJson v ++ '}' :: rest) with
              | none => none
              | some (v2, r3) =>
                match skipWs r3 with
                | ',' :: r4 => (parseMembers f r4).map (fun p => ((k, v2) :: p.1, p.2))
                | '}' :: r4 => some ([(k, v2)], r4)
                | _ => none) = some ([(k, v)], rest)
            rw [ihJ v hwfx.2.1 hszv ('}' :: rest) hrok]
            rfl
          · have hpr : printMembers ((k, v) :: (k2, v2) :: kvs2) ++ '}' :: rest =
                '"' :: (k ++ '"' :: ':' ::
                  (printJson v ++ ',' ::
                    (printMembers ((k2, v2) :: kvs2) ++ '}' :: rest))) := by
              show (('"' :: (k ++ '"' :: ':' :: printJson v)) ++
                  ',' :: printMembers ((k2, v2) :: kvs2)) ++ '}' :: rest = _
              simp [List.append_assoc]
            have hrok : restOk v
                (',' :: (printMembers ((k2, v2) :: kvs2) ++ '}' :: rest)) := by
              cases v <;> simp [restOk]
            have hszv : jsizeJ v ≤ f := by
              simp only [jsizeM] at hs
              omega
            have hszm : jsizeM ((k2, v2) :: kvs2) ≤ f := by
              simp only [jsizeM] at hs ⊢
              omega
            rw [hpr, parseMembers, skipWs_cons _ (by decide)]
            simp only [takeStr_append k _ hkq]
            show (match parseJ f (printJson v ++ ',' ::
                (printMembers ((k2, v2) :: kvs2) ++ '}' :: rest)) with
              | none => none
              | some (v3, r3) =>
                match skipWs r3 with
                | ',' :: r4 => (parseMembers f r4).map (fun p => ((k, v3) :: p.1, p.2))
                | '}' :: r4 => some ([(k, v3)], r4)
                | _ => none) = some ((k, v) :: (k2, v2) :: kvs2, rest)
            rw [ihJ v hwfx.2.1 hszv _ hrok]
            show (parseMembers f (printMembers ((k2, v2) :: kvs2) ++ '}' :: rest)).map
              (fun p => ((k, v) :: p.1, p.2)) = some ((k, v) :: (k2, v2) :: kvs2, rest)
            rw [ihM ((k2, v2) :: kvs2) (List.cons_ne_nil _ _) hwfx.2.2 hszm rest]
            rfl

theorem printInt_len (i : ℤ) : 1 ≤ (printInt i).length := by
  rw [printInt]
  split_ifs
  · simp
  · rcases printNat_cons i.natAbs with ⟨d, t, h⟩
    rw [h]
    simp

mutual

theorem jsizeJ_le_len : ∀ j : Json, jsizeJ j ≤ (printJson j).length
  | .null => by simp [jsizeJ, printJson]
  | .num i => by
      have := printInt_len i
      simp only [jsizeJ, printJson]
      omega
  | .str s => by simp [jsizeJ, printJson]
  | .arr xs => by
      have h := jsizeL_le_len xs
      simp only [jsizeJ, printJson, List.length_cons, List.length_append,
        List.length_singleton]
      omega
  | .obj kvs => by
      have h := jsizeM_le_len kvs
      simp only [jsizeJ, printJson, List.length_cons, List.length_append,
        List.length_singleton]
      omega

theorem jsizeL_le_len : ∀ xs : List Json, jsizeL xs ≤ (printItems xs).length + 1
  | [] => by simp [jsizeL]
  | [x] => by
      have h := jsizeJ_le_len x
      simp only [jsizeL, printItems]
      omega
  | x :: y :: ys => by
      have h1 := jsizeJ_le_len x
      have h2 := jsizeL_le_len (y :: ys)
      have e1 : jsizeL (x :: y :: ys) = 1 + jsizeJ x + jsizeL (y :: ys) := rfl
      have e2 : (printItems (x :: y :: ys)).length =
          (printJson x).length + 1 + (printItems (y :: ys)).length := by
        show (printJson x ++ ',' :: printItems (y :: ys)).length = _
        simp [List.length_append]
        omega
      rw [e1, e2]
      omega

theorem jsizeM_le_len : ∀ kvs : List (List Char × Json),
    jsizeM kvs ≤ (printMembers kvs).length + 1
  | [] => by simp [jsizeM]
  | [(k, v)] => by
      have h := jsizeJ_le_len v
      simp only [jsizeM, printMembers, List.length_cons, List.length_append]
      omega
  | (k, v) :: (k2, v2) :: kvs => by
      have h1 := jsizeJ_le_len v
      have h2 := jsizeM_le_len ((k2, v2) :: kvs)
      have e1 : jsizeM ((k, v) :: (k2, v2) :: kvs) =
          1 + jsizeJ v + jsizeM ((k2, v2) :: kvs) := rfl
      have e2 : (printMembers ((k, v) :: (k2, v2) :: kvs)).length =
          k.length + 4 + (printJson v).length +
            (printMembers ((k2, v2) :: kvs)).length := by
        show (('"' :: (k ++ '"' :: ':' :: printJson v)) ++
            ',' :: printMembers ((k2, v2) :: kvs)).length = _
        simp [List.length_append]
        omega
      rw [e1, e2]
      omega

end

theorem readSalaryList_dump (l : List (String × ℤ)) :
    readSalaryList (l.map (fun p => (p.1.data, Json.num p.2))) = some l := by
  induction l with
  | nil => rfl
  | cons p l ih =>
      simp only [List.map_cons, readSalaryList, ih, Option.map_some']

theorem readSalaries_dump (l : List (String × ℤ)) :
    readSalaries (Json.obj (l.map (fun p => (p.1.data, Json.num p.2)))) = some l :=
  readSalaryList_dump l

theorem readOptNum_dump (o : Option ℤ) : readOptNum (optNumJson o) = some o := by
  cases o <;> rfl

theorem readGender_dump (g : Option (ℤ × ℤ)) : readGender (genderJson g) = some g := by
  cases g <;> rfl

theorem readWork_dump (w : Option ℤ) : readWork (workJson w) = some w := by
  cases w <;> rfl

theorem readYear_dump (yd : YearData) : readYear (dumpYear yd) = some yd := by
  rw [dumpYear, readYear, if_pos ⟨rfl, rfl, rfl, rfl, rfl⟩,
    readSalaries_dump, readSalaries_dump, readOptNum_dump, readGender_dump,
    readWork_dump]

theorem readNatKey_printNat (n : ℕ) : readNatKey (printNat n) = some n := by
  have hne : (printNat n).isEmpty = false := by
    rcases printNat_cons n with ⟨d, t, h⟩
    rw [h]
    rfl
  have hall : (printNat n).all Char.isDigit = true := by
    rw [List.all_eq_true]
    intro c hc
    rcases printNat_mem n c hc with ⟨e, rfl⟩
    exact (digitChar_props e).2.1
  rw [readNatKey, hne]
  simp only [Bool.false_eq_true, if_false, hall, digitsVal_printNat]
  simp

theorem readByYear_dump (l : List (ℕ × YearData)) :
    readByYear (l.map (fun p => (printNat p.1, dumpYear p.2))) = some l := by
  induction l with
  | nil => rfl
  | cons p l ih =>
      simp only [List.map_cons, readByYear, readNatKey_printNat, readYear_dump, ih]

theorem readNumList_dump (l : List ℕ) :
    readNumList (l.map (fun y => Json.num (Int.ofNat y))) = some l := by
  induction l with
  | nil => rfl
  | cons y l ih =>
      simp only [List.map_cons, readNumList, ih, Option.map_some']

theorem readMaster_dump (d : MasterData) : readMaster (dumpMaster d) = some d := by
  rw [dumpMaster, readMaster, if_pos ⟨rfl, rfl, rfl, rfl, rfl⟩]
  rw [show readYearsList (Json.arr (d.years.map (fun y => Json.num (Int.ofNat y)))) =
      some d.years from readNumList_dump d.years]
  rw [readByYear_dump]

theorem wfStr_printNat (n : ℕ) : wfStr (printNat n) = true := by
  rw [wfStr, List.all_eq_true]
  intro c hc
  rcases printNat_mem n c hc with ⟨e, rfl⟩
  exact (digitChar_props e).2.2.1

theorem wfMembers_salaries (l : List (String × ℤ))
    (h : ∀ p ∈ l, wfStr p.1.data = true) :
    wfMembers (l.map (fun p => (p.1.data, Json.num p.2))) = true := by
  induction l with
  | nil => rfl
  | cons p l ih =>
      simp only [List.map_cons, wfMembers, Bool.and_eq_true]
      exact ⟨⟨h p (List.mem_cons_self _ _), rfl⟩,
        ih (fun q hq => h q (List.mem_cons_of_mem _ hq))⟩

theorem wfJson_dumpYear (yd : YearData)
    (he : ∀ p ∈ yd.eng, wfStr p.1.data = true)
    (hg : ∀ p ∈ yd.geo, wfStr p.1.data = true) :
    wfJson (dumpYear yd) = true := by
  have h1 := wfMembers_salaries yd.eng he
  have h2 := wfMembers_salaries yd.geo hg
  have h3 : wfJson (optNumJson yd.orgCount) = true := by
    cases yd.orgCount <;> rfl
  have h4 : wfJson (genderJson yd.gender) = true := by
    cases yd.gender <;> rfl
  have h5 : wfJson (workJson yd.work) = true := by
    cases yd.work <;> rfl
  simp only [dumpYear, wfJson, wfMembers, Bool.and_eq_true]
  refine ⟨⟨by decide, h1⟩, ⟨by decide, h2⟩, ⟨by decide, h3⟩,
    ⟨by decide, h4⟩, ⟨by decide, h5⟩, trivial⟩

theorem wfItems_years (l : List ℕ) :
    wfItems (l.map (fun y => Json.num (Int.ofNat y))) = true := by
  induction l with
  | nil => rfl
  | cons y l ih =>
      simp only [List.map_cons, wfItems, Bool.and_eq_true]
      exact ⟨rfl, ih⟩

theorem wfMembers_byYear (l : List (ℕ × YearData))
    (h : ∀ p ∈ l, (∀ q ∈ p.2.eng, wfStr q.1.data = true) ∧
        (∀ q ∈ p.2.geo, wfStr q.1.data = true)) :
    wfMembers (l.map (fun p => (printNat p.1, dumpYear p.2))) = true := by
  induction l with
  | nil => rfl
  | cons p l ih =>
      simp only [List.map_cons, wfMembers, Bool.and_eq_true]
      rcases h p (List.mem_cons_self _ _) with ⟨he, hg⟩
      exact ⟨⟨wfStr_printNat p.1, wfJson_dumpYear p.2 he hg⟩,
        ih (fun q hq => h q (List.mem_cons_of_mem _ hq))⟩

theorem wfJson_dumpMaster (d : MasterData) (h : wfMaster d = true) :
    wfJson (dumpMaster d) = true := by
  have hby : ∀ p ∈ d.byYear, (∀ q ∈ p.2.eng, wfStr q.1.data = true) ∧
      (∀ q ∈ p.2.geo, wfStr q.1.data = true) := by
    intro p hp
    have hp2 := (List.all_eq_true.mp h) p hp
    rw [Bool.and_eq_true] at hp2
    exact ⟨fun q hq => (List.all_eq_true.mp hp2.1) q hq,
      fun q hq => (List.all_eq_true.mp hp2.2) q hq⟩
  have h1 := wfItems_years d.years
  have h2 := wfMembers_byYear d.byYear hby
  simp only [dumpMaster, levelsMetaJson, wfJson, wfMembers, wfItems, h1, h2,
    Bool.and_eq_true]
  refine ⟨⟨by decide, by decide, ⟨by decide, by decide⟩, ⟨by decide, by decide⟩,
    trivial⟩, ⟨by decide, trivial⟩, trivial⟩

/-- Claim C8: round-trip — writing the master dataset to JSON text
(`save_master_dataset`) and parsing it back (`load_master_data`) reproduces
the same mapping structure and values exactly, for every dataset whose level
names are plain (escape-free) strings, as all level names built by the
parser are. -/
theorem master_json_roundtrip (d : MasterData) (h : wfMaster d = true) :
    loadMaster (printJson (dumpMaster d)) = some d := by
  have hwf := wfJson_dumpMaster d h
  have hsize : jsizeJ (dumpMaster d) ≤ (printJson (dumpMaster d)).length :=
    jsizeJ_le_len _
  have hparse := (parse_print_roundtrip (printJson (dumpMaster d)).length).1
    (dumpMaster d) hwf hsize [] trivial
  rw [List.append_nil] at hparse
  simp only [loadMaster, hparse]
  rw [if_pos (by decide)]
  exact readMaster_dump d

/-- Witness for `master_json_roundtrip` on a concrete dataset that exercises
every field of the format. -/
theorem master_json_roundtrip_wit :
    wfMaster jsonSampleMaster = true ∧
      loadMaster (printJson (dumpMaster jsonSampleMaster)) =
        some jsonSampleMaster :=
  ⟨by decide, master_json_roundtrip jsonSampleMaster (by decide)⟩
